import Mathlib

/-! Sipeit: a CHIP-8 interpreter (`src/sipeit.c`)

A shallow embedding of the interpreter core of `sipeit.c` (the globals, the stack helpers,
`display_clear`, `return_from_routine` and `cpu_step`) together with theorems about it.

Conventions of the embedding.

* The C globals become the fields of `State`.  Arrays are total functions from the index;
  their C lengths are the constants `MEMORY_SIZE`, `STACK_SIZE`, `KEYS_SIZE` and the two
  display dimensions, and every array access of the source is preceded by an explicit
  bounds test in the model.  An access outside the array (undefined behaviour in C) is the
  outcome `Fault.out_of_bounds`.
* Machine integers are natural numbers; a store into a `uint8_t` or `uint16_t` object is
  written with `u8` / `u16` (reduction modulo `2^8` / `2^16`).
* `exit` through `CRASH_INVALID_INSTRUCTION` is the outcome `Fault.invalid_instruction`, which
  records the globals at the time of the exit.
* `rand()` reads the next element of the stream `rand_stream`.
-/

namespace Sipeit

/-! ## Constants -/

/-- Macro `SIPEIT_PROGRAM_OFFSET`. -/
def SIPEIT_PROGRAM_OFFSET : Nat := 512

/-- Macro `SIPEIT_TOTAL_MEMORY`. -/
def SIPEIT_TOTAL_MEMORY : Nat := 4096

/-- Macro `SIPEIT_DISPLAY_WIDTH`. -/
def SIPEIT_DISPLAY_WIDTH : Nat := 64

/-- Macro `SIPEIT_DISPLAY_HEIGHT`. -/
def SIPEIT_DISPLAY_HEIGHT : Nat := 32

/-- Length of `uint8_t memory[SIPEIT_TOTAL_MEMORY * 2]`. -/
def MEMORY_SIZE : Nat := SIPEIT_TOTAL_MEMORY * 2

/-- Length of `uint16_t stack[16]`. -/
def STACK_SIZE : Nat := 16

/-- Length of `uint16_t keys[16]`. -/
def KEYS_SIZE : Nat := 16

/-- Constant `UINT32_MAX`. -/
def UINT32_MAX : Nat := 0xFFFFFFFF

/-- Conversion to `uint8_t`. -/
def u8 (n : Nat) : Nat := n % 256

/-- Conversion to `uint16_t`. -/
def u16 (n : Nat) : Nat := n % 65536

/-! ## Machine state -/

/-- The global variables of `sipeit.c` that `cpu_step` reads or writes. -/
structure State where
  /-- Global `uint16_t keys[16]` -/
  keys : Nat → Nat
  /-- Global `uint8_t delay_timer` -/
  delay_timer : Nat
  /-- Global `uint8_t sound_timer` -/
  sound_timer : Nat
  /-- Global `uint8_t memory[SIPEIT_TOTAL_MEMORY * 2]` -/
  memory : Nat → Nat
  /-- Global `uint16_t stack[16]` -/
  stack : Nat → Nat
  /-- Global `uint32_t vmemory[SIPEIT_DISPLAY_HEIGHT][SIPEIT_DISPLAY_WIDTH]`, row first -/
  vmemory : Nat → Nat → Nat
  /-- Global `uint16_t instruction_pointer` -/
  instruction_pointer : Nat
  /-- Global `uint8_t stack_index` -/
  stack_index : Nat
  /-- Global `uint8_t v_registers[16]` -/
  v_registers : Nat → Nat
  /-- Global `uint16_t address_register` -/
  address_register : Nat
  /-- Global `bool waiting_for_key` -/
  waiting_for_key : Bool
  /-- Global `uint8_t v_register_key_index` -/
  v_register_key_index : Nat
  /-- The values the successive calls of `rand()` return -/
  rand_stream : Nat → Nat
  /-- The number of calls of `rand()` made so far -/
  rand_count : Nat

/-- The ways a step can end other than by returning. -/
inductive Fault where
  /-- Exit through `CRASH_INVALID_INSTRUCTION()`: carries the printed `instruction` and
  `instruction_pointer - SIPEIT_PROGRAM_OFFSET`, and the globals as they are when `exit(-4)`
  is called. -/
  | invalid_instruction (instruction : Nat) (offset : Int) (globals : State)
  /-- An array is indexed outside its bounds (undefined behaviour in C) -/
  | out_of_bounds

/-- Outcome of a step. -/
abbrev Result := Except Fault State

/-! ## Array stores -/

/-- Store `v` at index `i` of a one-dimensional array. -/
def set1 (f : Nat → Nat) (i v : Nat) : Nat → Nat :=
  fun k => if k = i then v else f k

/-- Store `v` at row `r`, column `c` of a two-dimensional array. -/
def set2 (f : Nat → Nat → Nat) (r c v : Nat) : Nat → Nat → Nat :=
  fun r1 c1 => if r1 = r ∧ c1 = c then v else f r1 c1

/-! ## Decoding macros -/

/-- Macro `NIBBLE(DATA, INDEX)`: `((DATA >> INDEX * 4) & 0x000F)`. -/
def NIBBLE (data index : Nat) : Nat := (data >>> (index * 4)) &&& 0x000F

/-- Macro `BYTE(DATA, INDEX)`: `((DATA >> INDEX * 8) & 0x00FF)`. -/
def BYTE (data index : Nat) : Nat := (data >>> (index * 8)) &&& 0x00FF

/-- Macro `TRIBBLE(DATA, INDEX)`: `((DATA >> INDEX * 12) & 0x0FFF)`. -/
def TRIBBLE (data index : Nat) : Nat := (data >>> (index * 12)) &&& 0x0FFF

/-- Macro `NEXT_INSTR()`: `(instruction_pointer + 2)`. -/
def NEXT_INSTR (s : State) : Nat := s.instruction_pointer + 2

/-- Macro `SKIP_INSTR_IF(c)`: `(instruction_pointer += (2 * (c)))`. -/
def SKIP_INSTR_IF (s : State) (c : Bool) : State :=
  { s with instruction_pointer := u16 (s.instruction_pointer + 2 * (if c then 1 else 0)) }

/-- Macro `INC_INSTR_POINTER()`: `(instruction_pointer += 2)`. -/
def INC_INSTR_POINTER (s : State) : State :=
  { s with instruction_pointer := u16 (s.instruction_pointer + 2) }

/-- Macro `CRASH_INVALID_INSTRUCTION()`, expanded where the globals are `s`. -/
def CRASH_INVALID_INSTRUCTION (s : State) (instruction : Nat) : Result :=
  .error (.invalid_instruction instruction
    ((s.instruction_pointer : Int) - (SIPEIT_PROGRAM_OFFSET : Int)) s)

/-! ## Stack and display helpers -/

/-- Function `stack_push`: `stack[stack_index++] = address;`. -/
def stack_push (s : State) (address : Nat) : Result :=
  if s.stack_index < STACK_SIZE then
    .ok { s with stack := set1 s.stack s.stack_index (u16 address),
                 stack_index := u8 (s.stack_index + 1) }
  else .error .out_of_bounds

/-- Function `stack_pop`: `return stack[--stack_index];` (the popped value and the new state). -/
def stack_pop (s : State) : Except Fault (Nat × State) :=
  let i := u8 (s.stack_index + 255)
  if i < STACK_SIZE then .ok (s.stack i, { s with stack_index := i })
  else .error .out_of_bounds

/-- Function `display_clear`: `memset(vmemory, 0, sizeof(vmemory));`. -/
def display_clear (s : State) : State :=
  { s with vmemory := fun _ _ => 0 }

/-- Function `return_from_routine`: `instruction_pointer = stack_pop();`. -/
def return_from_routine (s : State) : Result :=
  match stack_pop s with
  | .ok (a, s1) => .ok { s1 with instruction_pointer := a }
  | .error e => .error e

/-! ## Arithmetic builtins -/

/-- Builtin `__builtin_add_overflow` on `uint8_t` operands and result: the stored result and the
returned overflow indication. -/
def add_overflow (a b : Nat) : Nat × Nat :=
  (u8 (a + b), if a + b > 255 then 1 else 0)

/-- Builtin `__builtin_sub_overflow` on `uint8_t` operands and result: the stored result (the exact
difference reduced modulo 256) and the returned overflow indication. -/
def sub_overflow (a b : Nat) : Nat × Nat :=
  (Int.toNat (((a : Int) - (b : Int)) % 256), if a < b then 1 else 0)

/-! ## The draw instruction -/

/-- Body of the inner loop of `case SIPEIT_OPCODE_DRAW` (one pixel of one sprite row):
`dest_pixel` is `&vmemory[(cy + y_offset) % HEIGHT][(cx + x_offset) % WIDTH]`, `new_pixel` is
`((src_pixels & (0x80 >> x_offset)) != 0) * UINT32_MAX`, then
`v_registers[0xF] = v_registers[0xF] || (*dest_pixel ^ new_pixel) == 0;` and
`*dest_pixel ^= new_pixel;`. -/
def draw_pixel (cx cy y_offset src_pixels : Nat) (s : State) (x_offset : Nat) : State :=
  let r := (cy + y_offset) % SIPEIT_DISPLAY_HEIGHT
  let c := (cx + x_offset) % SIPEIT_DISPLAY_WIDTH
  let dest_pixel := s.vmemory r c
  let new_pixel := (if src_pixels &&& (0x80 >>> x_offset) ≠ 0 then 1 else 0) * UINT32_MAX
  let flag := if s.v_registers 0xF ≠ 0 ∨ dest_pixel ^^^ new_pixel = 0 then 1 else 0
  { s with v_registers := set1 s.v_registers 0xF flag,
           vmemory := set2 s.vmemory r c (dest_pixel ^^^ new_pixel) }

/-- Body of the outer loop of `case SIPEIT_OPCODE_DRAW` (one sprite row): `src_pixels` is
`*sprite`, where `sprite` is `&memory[address_register]` advanced `y_offset` times, followed by
the inner loop `for (x_offset = 0; x_offset < 8; x_offset++)`. -/
def draw_row (cx cy sprite : Nat) (s : State) (y_offset : Nat) : State :=
  let src_pixels := s.memory (sprite + y_offset)
  (List.range 8).foldl (draw_pixel cx cy y_offset src_pixels) s

/-- Block of `case SIPEIT_OPCODE_DRAW` up to its `break`.  The pointer `sprite` starts at
`&memory[address_register]` and the rows read are
`memory[address_register .. address_register + rows)`, which must lie inside `memory`. -/
def draw (s : State) (instruction : Nat) : Result :=
  let cx := s.v_registers (NIBBLE instruction 2)
  let cy := s.v_registers (NIBBLE instruction 1)
  let rows := u8 (NIBBLE instruction 0)
  if s.address_register + rows ≤ MEMORY_SIZE then
    let s1 := { s with v_registers := set1 s.v_registers 0xF 0 }
    .ok ((List.range rows).foldl (draw_row cx cy s.address_register) s1)
  else .error .out_of_bounds

/-! ## The arithmetic family -/

/-- Block of `case SIPEIT_OPCODE_ARITHMETIC` up to its `break`. -/
def arithmetic (s : State) (instruction : Nat) : Result :=
  let vx_index := u8 (NIBBLE instruction 2)
  let vy_index := u8 (NIBBLE instruction 1)
  let op := u8 (NIBBLE instruction 0)
  let v := s.v_registers
  if op = 0x0 then
    .ok { s with v_registers := set1 v vx_index (v vy_index) }
  else if op = 0x1 then
    .ok { s with v_registers := set1 v vx_index (u8 (v vx_index ||| v vy_index)) }
  else if op = 0x2 then
    .ok { s with v_registers := set1 v vx_index (u8 (v vx_index &&& v vy_index)) }
  else if op = 0x3 then
    .ok { s with v_registers := set1 v vx_index (u8 (v vx_index ^^^ v vy_index)) }
  else if op = 0x4 then
    let r := add_overflow (v vx_index) (v vy_index)
    .ok { s with v_registers := set1 (set1 v vx_index r.1) 0xF r.2 }
  else if op = 0x5 then
    let r := sub_overflow (v vx_index) (v vy_index)
    .ok { s with v_registers := set1 (set1 v vx_index r.1) 0xF r.2 }
  else if op = 0x6 then
    let v1 := set1 v 0xF (u8 (v vx_index &&& 1))
    .ok { s with v_registers := set1 v1 vx_index (u8 (v1 vx_index >>> 1)) }
  else if op = 0x7 then
    let r := sub_overflow (v vx_index) (v vy_index)
    .ok { s with v_registers := set1 (set1 v vx_index r.1) 0xF r.2 }
  else if op = 0xE then
    let v1 := set1 v 0xF (u8 (v vx_index &&& 1))
    .ok { s with v_registers := set1 v1 vx_index (u8 (v1 vx_index <<< 1)) }
  else CRASH_INVALID_INSTRUCTION s instruction

/-! ## The key-test family -/

/-- Block of `case SIPEIT_OPCODE_KEY_PRESSED` up to its `break`. -/
def key_pressed (s : State) (instruction : Nat) : Result :=
  let key := s.v_registers (NIBBLE instruction 2)
  let option := u8 (BYTE instruction 0)
  if option = 0x9E then
    if key < KEYS_SIZE then .ok (SKIP_INSTR_IF s (s.keys key == 0xFF))
    else .error .out_of_bounds
  else if option = 0xA1 then
    if key < KEYS_SIZE then .ok (SKIP_INSTR_IF s (s.keys key == 0x00))
    else .error .out_of_bounds
  else CRASH_INVALID_INSTRUCTION s instruction

/-! ## The miscellaneous family -/

/-- Block of `case SIPEIT_OPCODE_MISC` up to its `break`. -/
def misc (s : State) (instruction : Nat) : Result :=
  let value := u8 (NIBBLE instruction 2)
  let option := u8 (BYTE instruction 0)
  let v := s.v_registers
  let i := s.address_register
  if option = 0x0A then
    .ok { s with waiting_for_key := true, v_register_key_index := value }
  else if option = 0x07 then
    .ok { s with v_registers := set1 v value s.delay_timer }
  else if option = 0x18 then
    .ok { s with sound_timer := v value }
  else if option = 0x15 then
    .ok { s with delay_timer := v value }
  else if option = 0x1E then
    .ok { s with address_register := u16 (i + v value) }
  else if option = 0x29 then
    .ok { s with address_register := u16 (0 + 5 * v value) }
  else if option = 0x55 then
    if i + (value + 1) ≤ MEMORY_SIZE then
      .ok { s with memory :=
                     fun a => if i ≤ a ∧ a < i + (value + 1) then v (a - i) else s.memory a }
    else .error .out_of_bounds
  else if option = 0x65 then
    if i + (value + 1) ≤ MEMORY_SIZE then
      .ok { s with v_registers := fun k => if k < value + 1 then s.memory (i + k) else v k }
    else .error .out_of_bounds
  else if option = 0x33 then
    let reg_value := v value
    if i + 2 < MEMORY_SIZE then
      let m1 := set1 s.memory i (u8 (reg_value / 100))
      let m2 := set1 m1 (i + 1) (u8 ((reg_value / 10) % 10))
      let m3 := set1 m2 (i + 2) (u8 (reg_value % 10))
      .ok { s with memory := m3 }
    else .error .out_of_bounds
  else CRASH_INVALID_INSTRUCTION s instruction

/-! ## The step function -/

/-- The statement after the outer `switch` of `cpu_step`, reached by every `break`:
`INC_INSTR_POINTER();`. -/
def after_switch (r : Result) : Result :=
  match r with
  | .ok t => .ok (INC_INSTR_POINTER t)
  | .error e => .error e

/-- Function `cpu_step` from `uint8_t opcode = (instruction & 0xF000) >> 12;` on: the outer
`switch (opcode)` and the final `INC_INSTR_POINTER()`. -/
def execute (s : State) (instruction : Nat) : Result :=
  let opcode := u8 ((instruction &&& 0xF000) >>> 12)
  if opcode = 0x0 then
    let interrupt := u16 (TRIBBLE instruction 0)
    if interrupt = 0x00E0 then after_switch (.ok (display_clear s))
    else if interrupt = 0x00EE then return_from_routine s
    else CRASH_INVALID_INSTRUCTION s instruction
  else if opcode = 0x1 then
    .ok { s with instruction_pointer := TRIBBLE instruction 0 }
  else if opcode = 0x2 then
    match stack_push s (NEXT_INSTR s) with
    | .ok s1 => .ok { s1 with instruction_pointer := TRIBBLE instruction 0 }
    | .error e => .error e
  else if opcode = 0x3 then
    let value := u8 (BYTE instruction 0)
    let vx := s.v_registers (NIBBLE instruction 2)
    after_switch (.ok (SKIP_INSTR_IF s (value == vx)))
  else if opcode = 0x4 then
    let value := u8 (BYTE instruction 0)
    let vx := s.v_registers (NIBBLE instruction 2)
    after_switch (.ok (SKIP_INSTR_IF s (value != vx)))
  else if opcode = 0x9 then
    let vx := s.v_registers (NIBBLE instruction 2)
    let vy := s.v_registers (NIBBLE instruction 1)
    after_switch (.ok (SKIP_INSTR_IF s (vx != vy)))
  else if opcode = 0x5 then
    let vx := s.v_registers (NIBBLE instruction 2)
    let vy := s.v_registers (NIBBLE instruction 1)
    after_switch (.ok (SKIP_INSTR_IF s (vx == vy)))
  else if opcode = 0x6 then
    let vx_index := NIBBLE instruction 2
    after_switch (.ok { s with v_registers := set1 s.v_registers vx_index (u8 (BYTE instruction 0)) })
  else if opcode = 0x7 then
    let vx_index := NIBBLE instruction 2
    let sum := u8 (s.v_registers vx_index + BYTE instruction 0)
    after_switch (.ok { s with v_registers := set1 s.v_registers vx_index sum })
  else if opcode = 0x8 then after_switch (arithmetic s instruction)
  else if opcode = 0xA then
    after_switch (.ok { s with address_register := TRIBBLE instruction 0 })
  else if opcode = 0xB then
    let target := u16 (s.v_registers 0 + TRIBBLE instruction 0)
    after_switch (.ok { s with instruction_pointer := target })
  else if opcode = 0xC then
    let value := u8 (BYTE instruction 0)
    let random := u8 (s.rand_stream s.rand_count % 255) &&& value
    after_switch (.ok { s with v_registers := set1 s.v_registers (NIBBLE instruction 2) random,
                               rand_count := s.rand_count + 1 })
  else if opcode = 0xD then after_switch (draw s instruction)
  else if opcode = 0xE then after_switch (key_pressed s instruction)
  else if opcode = 0xF then after_switch (misc s instruction)
  else after_switch (CRASH_INVALID_INSTRUCTION s instruction)

/-- The fetch of `cpu_step`:
`uint16_t instruction = memory[instruction_pointer] << 8 | memory[instruction_pointer+1];`. -/
def fetch (s : State) : Except Fault Nat :=
  if s.instruction_pointer + 1 < MEMORY_SIZE then
    .ok (u16 ((s.memory s.instruction_pointer <<< 8) ||| s.memory (s.instruction_pointer + 1)))
  else .error .out_of_bounds

/-- Function `cpu_step`. -/
def cpu_step (s : State) : Result :=
  if s.waiting_for_key then .ok s
  else
    match fetch s with
    | .error e => .error e
    | .ok instruction =>
      if instruction = 0x0000 then .ok s
      else execute s instruction

/-- The first `n` iterations of `cpu_step` alone (no timer update, no key event). -/
def cpu_steps : Nat → State → Result
  | 0, s => .ok s
  | n + 1, s =>
    match cpu_step s with
    | .ok t => cpu_steps n t
    | .error e => .error e

/-! ## Initial state -/

/-- The `fontset` table of `initialize_memory`. -/
def fontset : List Nat :=
  [0xF0, 0x90, 0x90, 0x90, 0xF0,
   0x20, 0x60, 0x20, 0x20, 0x70,
   0xF0, 0x10, 0xF0, 0x80, 0xF0,
   0xF0, 0x10, 0xF0, 0x10, 0xF0,
   0x90, 0x90, 0xF0, 0x10, 0x10,
   0xF0, 0x80, 0xF0, 0x10, 0xF0,
   0xF0, 0x80, 0xF0, 0x90, 0xF0,
   0xF0, 0x10, 0x20, 0x40, 0x40,
   0xF0, 0x90, 0xF0, 0x90, 0xF0,
   0xF0, 0x90, 0xF0, 0x10, 0xF0,
   0xF0, 0x90, 0xF0, 0x90, 0x90,
   0xE0, 0x90, 0xE0, 0x90, 0xE0,
   0xF0, 0x80, 0x80, 0x80, 0xF0,
   0xE0, 0x90, 0x90, 0x90, 0xE0,
   0xF0, 0x80, 0xF0, 0x80, 0xF0,
   0xF0, 0x80, 0xF0, 0x80, 0x80]

/-- The globals as `main` leaves them before the first `cpu_step`: the static initialisers,
then `initialize_memory` (the font at address 0) and `load_program` (the bytes of the program
file `program`, of at most `SIPEIT_TOTAL_MEMORY - SIPEIT_PROGRAM_OFFSET` bytes, at
`SIPEIT_PROGRAM_OFFSET`).  The stream `rand` is what `rand()` will return. -/
def initial_state (program : List Nat) (rand : Nat → Nat) : State :=
  { keys := fun _ => 0,
    delay_timer := 0,
    sound_timer := 0,
    memory := fun a =>
      if a < 80 then fontset.getD a 0
      else if SIPEIT_PROGRAM_OFFSET ≤ a ∧ a < SIPEIT_PROGRAM_OFFSET + program.length then
        program.getD (a - SIPEIT_PROGRAM_OFFSET) 0
      else 0,
    stack := fun _ => 0,
    vmemory := fun _ _ => 0,
    instruction_pointer := SIPEIT_PROGRAM_OFFSET,
    stack_index := 0,
    v_registers := fun _ => 0,
    address_register := 0,
    waiting_for_key := false,
    v_register_key_index := 0,
    rand_stream := rand,
    rand_count := 0 }

/-- A machine state for concrete evaluations: the initial state for `program`, with the V
registers replaced by `regs` and the address register by `i`. -/
def sample_state (program : List Nat) (regs : Nat → Nat) (i : Nat) : State :=
  { initial_state program (fun _ => 0) with v_registers := regs, address_register := i }

/-! ## Auxiliary definitions for the draw loops -/

/-- Display position (row, column) that the draw loops compute for the sprite cell
`p = (y_offset, x_offset)` when the sprite is drawn at `(cx, cy)`. -/
def cell_pos (cx cy : Nat) (p : Nat × Nat) : Nat × Nat :=
  ((cy + p.1) % SIPEIT_DISPLAY_HEIGHT, (cx + p.2) % SIPEIT_DISPLAY_WIDTH)

/-- The value `new_pixel` that the draw loops compute for the sprite cell
`p = (y_offset, x_offset)` of the sprite stored at address `sprite` of `mem`. -/
def cell_pixel (mem : Nat → Nat) (sprite : Nat) (p : Nat × Nat) : Nat :=
  (if mem (sprite + p.1) &&& (0x80 >>> p.2) ≠ 0 then 1 else 0) * UINT32_MAX

/-- One iteration of the inner draw loop, indexed by the sprite cell
`p = (y_offset, x_offset)`. -/
def paint (cx cy : Nat) (mem : Nat → Nat) (sprite : Nat) (s : State) (p : Nat × Nat) : State :=
  draw_pixel cx cy p.1 (mem (sprite + p.1)) s p.2

/-- The sprite cells in the order the draw loops visit them. -/
def sprite_cells (rows : Nat) : List (Nat × Nat) :=
  List.product (List.range rows) (List.range 8)

/-- The state a step returns, or `d` when the step ends in a fault. -/
def result_or (r : Result) (d : State) : State :=
  match r with
  | .ok t => t
  | .error _ => d

/-- The fault a step ends in, if any. -/
def fault_of (r : Result) : Option Fault :=
  match r with
  | .ok _ => none
  | .error e => some e

instance fault_out_of_bounds_decidable (o : Option Fault) :
    Decidable (o = some Fault.out_of_bounds) :=
  match o with
  | some .out_of_bounds => isTrue rfl
  | some (.invalid_instruction _ _ _) => isFalse (fun h => by cases h)
  | none => isFalse (fun h => by cases h)

/-! ## Key events and timers -/

/-- The `case SDL_KEYDOWN` block of the event loop of `main`, once the physical key has been
mapped to the key code `key` (`0x0` to `0xF`): `keys[key] = 0xFF;` followed by
`if (waiting_for_key) { waiting_for_key = false; v_register_key_index = key; }`. -/
def key_down (s : State) (key : Nat) : State :=
  let s1 := { s with keys := set1 s.keys key 0xFF }
  if s1.waiting_for_key then
    { s1 with waiting_for_key := false, v_register_key_index := key }
  else s1

/-- The `case SDL_KEYUP` block of the event loop of `main`, once the physical key has been
mapped to the key code `key`: `keys[key] = 0x00;`. -/
def key_up (s : State) (key : Nat) : State :=
  { s with keys := set1 s.keys key 0x00 }

/-- Function `update_timers`.  Its static variable `prev_clock` is passed in and returned with
the state.  `clock_first` and `clock_second` are the values that the first and the second call
of `clock()` made by this invocation return, and `elapsed` is the outcome of the floating-point
test `diff > SIPEIT_TIMERS_INTERVAL`, where `diff` is
`(double)(curr_clock - prev_clock) / CLOCKS_PER_SEC`. -/
def update_timers (s : State) (prev_clock : Nat) (elapsed : Bool)
    (clock_first clock_second : Nat) : State × Nat :=
  if prev_clock = 0 then (s, clock_first)
  else if elapsed then
    ({ s with delay_timer := u8 (s.delay_timer - (if s.delay_timer ≠ 0 then 1 else 0) * 1),
              sound_timer := u8 (s.sound_timer - (if s.sound_timer ≠ 0 then 1 else 0) * 1) },
      clock_second)
  else (s, prev_clock)

/-- A state about to execute `F255 6000 6100 F265` with `V0, V1, V2, ... = 10, 11, 12, ...`
and the address register at `0x300`. -/
def dump_load_sample : State :=
  sample_state [0xF2, 0x55, 0x60, 0x00, 0x61, 0x00, 0xF2, 0x65] (fun k => 10 + k) 0x300

/-- The initial state for the program `600A 6105 8014 0000`. -/
def scenario_state : State :=
  initial_state [0x60, 0x0A, 0x61, 0x05, 0x80, 0x14, 0x00, 0x00] (fun _ => 0)

/-! ## The instruction set as the specification lists it -/

/-- The 16-bit words that the specification places outside the instruction set: top nibble
`0x0` with low 12 bits other than `0x0E0` and `0x0EE`; top nibble `0x8` with low nibble other
than `0..7` and `0xE`; top nibble `0xE` with low byte other than `0x9E` and `0xA1`; top nibble
`0xF` with low byte other than `0x07, 0x0A, 0x15, 0x18, 0x1E, 0x29, 0x33, 0x55, 0x65`. -/
def not_in_instruction_set (w : Nat) : Prop :=
  (w / 0x1000 = 0x0 ∧ w % 0x1000 ≠ 0x0E0 ∧ w % 0x1000 ≠ 0x0EE) ∨
  (w / 0x1000 = 0x8 ∧ ¬ (w % 0x10 ≤ 7 ∨ w % 0x10 = 0xE)) ∨
  (w / 0x1000 = 0xE ∧ w % 0x100 ≠ 0x9E ∧ w % 0x100 ≠ 0xA1) ∨
  (w / 0x1000 = 0xF ∧ w % 0x100 ≠ 0x07 ∧ w % 0x100 ≠ 0x0A ∧ w % 0x100 ≠ 0x15 ∧
    w % 0x100 ≠ 0x18 ∧ w % 0x100 ≠ 0x1E ∧ w % 0x100 ≠ 0x29 ∧ w % 0x100 ≠ 0x33 ∧
    w % 0x100 ≠ 0x55 ∧ w % 0x100 ≠ 0x65)

instance not_in_instruction_set_decidable (w : Nat) : Decidable (not_in_instruction_set w) := by
  unfold not_in_instruction_set
  infer_instance

/-- Whether a step ended in `CRASH_INVALID_INSTRUCTION()`. -/
def is_invalid : Result → Bool
  | .error (.invalid_instruction _ _ _) => true
  | _ => false

/-! ## Alignment of the program counter -/

/-- The program counter and every entry of `stack` are even. -/
def aligned (s : State) : Prop :=
  s.instruction_pointer % 2 = 0 ∧ ∀ i, s.stack i % 2 = 0

/-- If the instruction the state is about to execute is a jump `1nnn` or a call `2nnn`, then
`nnn` is even; if it is a relative jump `Bnnn`, then `V0 + nnn` is even. -/
def even_jump_target (s : State) : Prop :=
  match fetch s with
  | .ok w =>
    ((w / 0x1000 = 0x1 ∨ w / 0x1000 = 0x2) → (w % 0x1000) % 2 = 0) ∧
    (w / 0x1000 = 0xB → (s.v_registers 0 + w % 0x1000) % 2 = 0)
  | .error _ => True

instance even_jump_target_decidable (s : State) : Decidable (even_jump_target s) := by
  unfold even_jump_target
  split <;> infer_instance

/-- The initial state for the program `1204 0000 6001`: a jump over two zero bytes. -/
def even_jump_sample : State :=
  initial_state [0x12, 0x04, 0x00, 0x00, 0x60, 0x01] (fun _ => 0)

/-! ## Memory accesses -/

/-- The indices at which the next `cpu_step` reads or writes the array `memory`: none when
`waiting_for_key` is set; otherwise the two bytes of the fetch and, for a fetched non-zero
instruction, the sprite rows read by `case SIPEIT_OPCODE_DRAW`, the `value + 1` bytes copied by
`case SIPEIT_MISC_REG_DUMP` and `case SIPEIT_MISC_REG_LOAD`, and the three bytes written by
`case SIPEIT_MISC_BCD`. -/
def memory_accesses (s : State) : List Nat :=
  if s.waiting_for_key then []
  else
    let ip := s.instruction_pointer
    let i := s.address_register
    [ip, ip + 1] ++
      match fetch s with
      | .error _ => []
      | .ok instruction =>
        let opcode := u8 ((instruction &&& 0xF000) >>> 12)
        let value := u8 (NIBBLE instruction 2)
        let option := u8 (BYTE instruction 0)
        if instruction = 0x0000 then []
        else if opcode = 0xD then
          (List.range (u8 (NIBBLE instruction 0))).map (fun y_offset => i + y_offset)
        else if opcode = 0xF ∧ (option = 0x55 ∨ option = 0x65) then
          (List.range (value + 1)).map (fun k => i + k)
        else if opcode = 0xF ∧ option = 0x33 then [i, i + 1, i + 2]
        else []

/-- A program that raises the address register past the end of `memory`: `60FF` (`V0 := 255`),
`AFFF` (`I := 0xFFF`), seventeen times `F01E` (`I := I + V0`), then `F033` (BCD of `V0`). -/
def overrun_program : List Nat :=
  [0x60, 0xFF, 0xAF, 0xFF,
   0xF0, 0x1E, 0xF0, 0x1E, 0xF0, 0x1E, 0xF0, 0x1E,
   0xF0, 0x1E, 0xF0, 0x1E, 0xF0, 0x1E, 0xF0, 0x1E,
   0xF0, 0x1E, 0xF0, 0x1E, 0xF0, 0x1E, 0xF0, 0x1E,
   0xF0, 0x1E, 0xF0, 0x1E, 0xF0, 0x1E, 0xF0, 0x1E, 0xF0, 0x1E,
   0xF0, 0x33]

/-! ## Decoding lemmas -/

theorem u8_of_lt {n : Nat} (h : n < 256) : u8 n = n := Nat.mod_eq_of_lt h

theorem u16_of_lt {n : Nat} (h : n < 65536) : u16 n = n := Nat.mod_eq_of_lt h

theorem opcode_eq (w : Nat) : u8 ((w &&& 0xF000) >>> 12) = w / 4096 % 16 := by
  have h1 : (w &&& 0xF000) >>> 12 = (w >>> 12) &&& (2 ^ 4 - 1) := by
    apply Nat.eq_of_testBit_eq
    intro i
    have h : (0xF000 : Nat) = (2 ^ 4 - 1) <<< 12 := by decide
    rw [h]
    simp only [Nat.testBit_shiftRight, Nat.testBit_and, Nat.testBit_shiftLeft]
    simp
  rw [h1, Nat.and_pow_two_sub_one_eq_mod, Nat.shiftRight_eq_div_pow]
  exact u8_of_lt (by omega)

theorem NIBBLE_zero (w : Nat) : NIBBLE w 0 = w % 16 := by
  unfold NIBBLE
  simpa using Nat.and_pow_two_sub_one_eq_mod w 4

theorem NIBBLE_one (w : Nat) : NIBBLE w 1 = w / 16 % 16 := by
  unfold NIBBLE
  rw [Nat.shiftRight_eq_div_pow]
  exact Nat.and_pow_two_sub_one_eq_mod _ 4

theorem NIBBLE_two (w : Nat) : NIBBLE w 2 = w / 256 % 16 := by
  unfold NIBBLE
  rw [Nat.shiftRight_eq_div_pow]
  exact Nat.and_pow_two_sub_one_eq_mod _ 4

theorem BYTE_zero (w : Nat) : BYTE w 0 = w % 256 := by
  unfold BYTE
  simpa using Nat.and_pow_two_sub_one_eq_mod w 8

theorem TRIBBLE_zero (w : Nat) : TRIBBLE w 0 = w % 4096 := by
  unfold TRIBBLE
  simpa using Nat.and_pow_two_sub_one_eq_mod w 12

/-! ## Fetch and dispatch -/

theorem fetch_bound {s : State} {w : Nat} (hf : fetch s = .ok w) :
    s.instruction_pointer + 1 < MEMORY_SIZE := by
  unfold fetch at hf
  by_contra h
  rw [if_neg h] at hf
  cases hf

theorem cpu_step_eq_execute {s : State} {w : Nat} (hw : s.waiting_for_key = false)
    (hf : fetch s = .ok w) (h0 : w ≠ 0) : cpu_step s = execute s w := by
  simp [cpu_step, hw, hf, h0]

theorem cpu_step_waiting {s : State} (hw : s.waiting_for_key = true) : cpu_step s = .ok s := by
  simp [cpu_step, hw]

theorem cpu_steps_waiting {s : State} (hw : s.waiting_for_key = true) (n : Nat) :
    cpu_steps n s = .ok s := by
  induction n with
  | zero => rfl
  | succ n ih => simp [cpu_steps, cpu_step_waiting hw, ih]

theorem inc_of_fetch {s : State} {w : Nat} (hf : fetch s = .ok w) :
    u16 (s.instruction_pointer + 2) = s.instruction_pointer + 2 := by
  have h := fetch_bound hf
  simp only [MEMORY_SIZE, SIPEIT_TOTAL_MEMORY] at h
  exact u16_of_lt (by omega)

/-! ## Arithmetic instructions -/

theorem execute_add (s : State) (x y : Nat) (hx : x < 16) (hy : y < 16) :
    execute s (0x8004 + 0x100 * x + 0x10 * y) =
      .ok { s with
        v_registers := set1 (set1 s.v_registers x (u8 (s.v_registers x + s.v_registers y))) 0xF
          (if s.v_registers x + s.v_registers y > 255 then 1 else 0),
        instruction_pointer := u16 (s.instruction_pointer + 2) } := by
  have hop : u8 (((0x8004 + 0x100 * x + 0x10 * y) &&& 0xF000) >>> 12) = 8 := by
    rw [opcode_eq]; omega
  have h0 : u8 (NIBBLE (0x8004 + 0x100 * x + 0x10 * y) 0) = 4 := by
    rw [NIBBLE_zero, u8_of_lt (by omega)]; omega
  have h1 : u8 (NIBBLE (0x8004 + 0x100 * x + 0x10 * y) 1) = y := by
    rw [NIBBLE_one, u8_of_lt (by omega)]; omega
  have h2 : u8 (NIBBLE (0x8004 + 0x100 * x + 0x10 * y) 2) = x := by
    rw [NIBBLE_two, u8_of_lt (by omega)]; omega
  simp [execute, hop, arithmetic, h0, h1, h2, add_overflow, after_switch, INC_INSTR_POINTER]

theorem execute_sub_gen (s : State) (x y n : Nat) (hx : x < 16) (hy : y < 16)
    (hn : n = 5 ∨ n = 7) :
    execute s (0x8000 + 0x100 * x + 0x10 * y + n) =
      .ok { s with
        v_registers := set1 (set1 s.v_registers x
            (Int.toNat (((s.v_registers x : Int) - (s.v_registers y : Int)) % 256))) 0xF
          (if s.v_registers x < s.v_registers y then 1 else 0),
        instruction_pointer := u16 (s.instruction_pointer + 2) } := by
  have hop : u8 (((0x8000 + 0x100 * x + 0x10 * y + n) &&& 0xF000) >>> 12) = 8 := by
    rw [opcode_eq]; omega
  have h0 : u8 (NIBBLE (0x8000 + 0x100 * x + 0x10 * y + n) 0) = n := by
    rw [NIBBLE_zero, u8_of_lt (by omega)]; omega
  have h1 : u8 (NIBBLE (0x8000 + 0x100 * x + 0x10 * y + n) 1) = y := by
    rw [NIBBLE_one, u8_of_lt (by omega)]; omega
  have h2 : u8 (NIBBLE (0x8000 + 0x100 * x + 0x10 * y + n) 2) = x := by
    rw [NIBBLE_two, u8_of_lt (by omega)]; omega
  rcases hn with rfl | rfl <;>
    simp [execute, hop, arithmetic, h0, h1, h2, sub_overflow, after_switch, INC_INSTR_POINTER]

theorem toNat_emod_256 (a b : Nat) :
    ((Int.toNat (((a : Int) - (b : Int)) % 256) : Nat) : Int) = ((a : Int) - (b : Int)) % 256 :=
  Int.toNat_of_nonneg (Int.emod_nonneg _ (by norm_num))

/-- C4: in a state that is not waiting for a key, an instruction `8xy4` with `x ≠ 0xF` leaves
`VF = 1` if the old `Vx + Vy` exceeds 255 and `VF = 0` otherwise, leaves `Vx` equal to the old
`(Vx + Vy) mod 256`, and advances the program counter by 2. -/
theorem add_carry_flag (s : State) (x y : Nat) (hx : x < 16) (hxF : x ≠ 0xF) (hy : y < 16)
    (hw : s.waiting_for_key = false)
    (hf : fetch s = .ok (0x8004 + 0x100 * x + 0x10 * y)) :
    ∃ t, cpu_step s = .ok t ∧
      t.v_registers 0xF = (if s.v_registers x + s.v_registers y > 255 then 1 else 0) ∧
      t.v_registers x = (s.v_registers x + s.v_registers y) % 256 ∧
      t.instruction_pointer = s.instruction_pointer + 2 := by
  rw [cpu_step_eq_execute hw hf (by omega), execute_add s x y hx hy]
  refine ⟨_, rfl, ?_, ?_, ?_⟩
  · simp [set1]
  · simp [set1, hxF, u8]
  · exact inc_of_fetch hf

/-- C5: in a state that is not waiting for a key, an instruction `8xy5` with `x ≠ 0xF` leaves
`VF = 1` if the old `Vx` is below the old `Vy` (a borrow) and `VF = 0` otherwise, and leaves
`Vx` equal to the old `(Vx - Vy) mod 256`. -/
theorem sub_borrow_flag (s : State) (x y : Nat) (hx : x < 16) (hxF : x ≠ 0xF) (hy : y < 16)
    (hw : s.waiting_for_key = false)
    (hf : fetch s = .ok (0x8000 + 0x100 * x + 0x10 * y + 5)) :
    ∃ t, cpu_step s = .ok t ∧
      t.v_registers 0xF = (if s.v_registers x < s.v_registers y then 1 else 0) ∧
      (t.v_registers x : Int) = ((s.v_registers x : Int) - (s.v_registers y : Int)) % 256 := by
  rw [cpu_step_eq_execute hw hf (by omega), execute_sub_gen s x y 5 hx hy (Or.inl rfl)]
  refine ⟨_, rfl, ?_, ?_⟩
  · simp [set1]
  · simp only [set1, if_neg hxF, if_true]
    exact toNat_emod_256 _ _

/-- C6: for all register indices `x`, `y`, executing `8xy7` from a state gives exactly the result
of executing `8xy5` from that state: `Vx` receives `(Vx - Vy) mod 256` (not `Vy - Vx`), then `VF`
receives 1 if `Vx < Vy` and 0 otherwise, and the program counter advances by 2. -/
theorem rsub_same_as_sub (s : State) (x y : Nat) (hx : x < 16) (hy : y < 16) :
    execute s (0x8000 + 0x100 * x + 0x10 * y + 7) =
        execute s (0x8000 + 0x100 * x + 0x10 * y + 5) ∧
      execute s (0x8000 + 0x100 * x + 0x10 * y + 7) =
        .ok { s with
          v_registers := set1 (set1 s.v_registers x
              (Int.toNat (((s.v_registers x : Int) - (s.v_registers y : Int)) % 256))) 0xF
            (if s.v_registers x < s.v_registers y then 1 else 0),
          instruction_pointer := u16 (s.instruction_pointer + 2) } := by
  rw [execute_sub_gen s x y 7 hx hy (Or.inr rfl), execute_sub_gen s x y 5 hx hy (Or.inl rfl)]
  exact ⟨rfl, rfl⟩

/-! ## Jumps -/

/-- C7: in a state that is not waiting for a key, an instruction `1nnn` sets the program counter
to `nnn` and changes no other component of the state. -/
theorem jump_sets_pc_only (s : State) (nnn : Nat) (hn : nnn < 0x1000)
    (hw : s.waiting_for_key = false) (hf : fetch s = .ok (0x1000 + nnn)) :
    cpu_step s = .ok { s with instruction_pointer := nnn } := by
  have hop : u8 (((0x1000 + nnn) &&& 0xF000) >>> 12) = 1 := by
    rw [opcode_eq]; omega
  have ht : TRIBBLE (0x1000 + nnn) 0 = nnn := by
    rw [TRIBBLE_zero]; omega
  rw [cpu_step_eq_execute hw hf (by omega)]
  simp [execute, hop, ht]

theorem execute_relative_jump (s : State) (nnn : Nat) (hn : nnn < 0x1000) :
    execute s (0xB000 + nnn) =
      .ok { s with instruction_pointer := u16 (u16 (s.v_registers 0 + nnn) + 2) } := by
  have hop : u8 (((0xB000 + nnn) &&& 0xF000) >>> 12) = 0xB := by
    rw [opcode_eq]; omega
  have ht : TRIBBLE (0xB000 + nnn) 0 = nnn := by
    rw [TRIBBLE_zero]; omega
  simp [execute, hop, ht, after_switch, INC_INSTR_POINTER]

theorem add_carry_flag_witness :
    ∃ t, cpu_step (sample_state [0x83, 0x54] (fun k => if k = 3 then 200 else 100) 0) = .ok t ∧
      t.v_registers 0xF = 1 ∧ t.v_registers 3 = 44 ∧ t.instruction_pointer = 514 :=
  add_carry_flag (sample_state [0x83, 0x54] (fun k => if k = 3 then 200 else 100) 0) 3 5
    (by decide) (by decide) (by decide) rfl rfl

theorem sub_borrow_flag_witness :
    ∃ t, cpu_step (sample_state [0x83, 0x55] (fun k => if k = 3 then 100 else 200) 0) = .ok t ∧
      t.v_registers 0xF = 1 ∧ (t.v_registers 3 : Int) = 156 :=
  sub_borrow_flag (sample_state [0x83, 0x55] (fun k => if k = 3 then 100 else 200) 0) 3 5
    (by decide) (by decide) (by decide) rfl rfl

theorem rsub_same_as_sub_witness :
    execute (sample_state [] (fun k => if k = 3 then 100 else 200) 0) 0x8357 =
      execute (sample_state [] (fun k => if k = 3 then 100 else 200) 0) 0x8355 :=
  (rsub_same_as_sub (sample_state [] (fun k => if k = 3 then 100 else 200) 0) 3 5
    (by decide) (by decide)).1

theorem jump_sets_pc_only_witness :
    cpu_step (sample_state [0x1A, 0xBC] (fun _ => 7) 9) =
      .ok { sample_state [0x1A, 0xBC] (fun _ => 7) 9 with instruction_pointer := 0xABC } :=
  jump_sets_pc_only (sample_state [0x1A, 0xBC] (fun _ => 7) 9) 0xABC (by decide) rfl rfl

/-- C8: the code at the failing input.  From the initial state, the program `6004` (`V0 := 4`),
`B300` leaves the program counter at `0x306`, which is `V0 + nnn + 2`, not `V0 + nnn = 0x304`:
the case ends in `break`, so the final `INC_INSTR_POINTER()` is applied to the jump target. -/
theorem relative_jump_adds_two :
    (cpu_steps 2 (initial_state [0x60, 0x04, 0xB3, 0x00] (fun _ => 0))).toOption.map
      (fun t => (t.v_registers 0, t.instruction_pointer)) = some (4, 0x306) := by
  decide

/-! ## Waiting for a key -/

/-- C10: in a state that is not waiting for a key, an instruction `Fx0A` sets
`waiting_for_key`, records `x` in `v_register_key_index` (and advances the program counter by
2, changing nothing else); and from every state in which `waiting_for_key` is set, `cpu_step`
returns the state unchanged, as does any number of consecutive steps. -/
theorem wait_key_suspends (s : State) (x : Nat) (hx : x < 16)
    (hw : s.waiting_for_key = false) (hf : fetch s = .ok (0xF00A + 0x100 * x)) :
    cpu_step s = .ok { s with waiting_for_key := true, v_register_key_index := x,
                              instruction_pointer := s.instruction_pointer + 2 } ∧
      ∀ u : State, u.waiting_for_key = true →
        cpu_step u = .ok u ∧ ∀ n, cpu_steps n u = .ok u := by
  have hop : u8 (((0xF00A + 0x100 * x) &&& 0xF000) >>> 12) = 0xF := by
    rw [opcode_eq]; omega
  have h0 : u8 (BYTE (0xF00A + 0x100 * x) 0) = 0x0A := by
    rw [BYTE_zero, u8_of_lt (by omega)]; omega
  have h2 : u8 (NIBBLE (0xF00A + 0x100 * x) 2) = x := by
    rw [NIBBLE_two, u8_of_lt (by omega)]; omega
  refine ⟨?_, fun u hu => ⟨cpu_step_waiting hu, cpu_steps_waiting hu⟩⟩
  rw [cpu_step_eq_execute hw hf (by omega)]
  simp [execute, hop, misc, h0, h2, after_switch, INC_INSTR_POINTER, inc_of_fetch hf]

theorem wait_key_suspends_witness :
    cpu_step (sample_state [0xF3, 0x0A] (fun _ => 7) 9) =
      .ok { sample_state [0xF3, 0x0A] (fun _ => 7) 9 with
              waiting_for_key := true, v_register_key_index := 3,
              instruction_pointer := 514 } :=
  (wait_key_suspends (sample_state [0xF3, 0x0A] (fun _ => 7) 9) 3 (by decide) rfl rfl).1

/-! ## The draw instruction -/

theorem paint_memory (cx cy : Nat) (mem : Nat → Nat) (sprite : Nat) (s : State) (p : Nat × Nat) :
    (paint cx cy mem sprite s p).memory = s.memory := rfl

theorem paint_vmemory (cx cy : Nat) (mem : Nat → Nat) (sprite : Nat) (s : State)
    (p : Nat × Nat) :
    (paint cx cy mem sprite s p).vmemory =
      set2 s.vmemory (cell_pos cx cy p).1 (cell_pos cx cy p).2
        (s.vmemory (cell_pos cx cy p).1 (cell_pos cx cy p).2 ^^^ cell_pixel mem sprite p) := rfl

theorem foldl_paint_memory (cx cy : Nat) (mem : Nat → Nat) (sprite : Nat)
    (l : List (Nat × Nat)) (s : State) :
    (l.foldl (paint cx cy mem sprite) s).memory = s.memory := by
  induction l generalizing s with
  | nil => rfl
  | cons p l ih => rw [List.foldl_cons, ih, paint_memory]

/-- A display position that no cell of `l` maps to keeps its pixel. -/
theorem foldl_paint_untouched (cx cy : Nat) (mem : Nat → Nat) (sprite : Nat)
    (l : List (Nat × Nat)) (s : State) (r c : Nat)
    (h : ∀ p ∈ l, cell_pos cx cy p ≠ (r, c)) :
    (l.foldl (paint cx cy mem sprite) s).vmemory r c = s.vmemory r c := by
  induction l generalizing s with
  | nil => rfl
  | cons p l ih =>
    rw [List.foldl_cons, ih _ (fun q hq => h q (List.mem_cons_of_mem _ hq)), paint_vmemory]
    have hp := h p (List.mem_cons_self _ _)
    have : ¬ (r = (cell_pos cx cy p).1 ∧ c = (cell_pos cx cy p).2) := by
      rintro ⟨h1, h2⟩
      exact hp (by rw [h1, h2])
    simp only [set2, if_neg this]

/-- When the cells of `l` map to pairwise different display positions, the pixel a cell maps to
is XORed with that cell's `new_pixel` exactly once. -/
theorem foldl_paint_touched (cx cy : Nat) (mem : Nat → Nat) (sprite : Nat)
    (l : List (Nat × Nat)) (s : State) (p : Nat × Nat)
    (hl : l.Pairwise (fun a b => cell_pos cx cy a ≠ cell_pos cx cy b)) (hp : p ∈ l) :
    (l.foldl (paint cx cy mem sprite) s).vmemory (cell_pos cx cy p).1 (cell_pos cx cy p).2 =
      s.vmemory (cell_pos cx cy p).1 (cell_pos cx cy p).2 ^^^ cell_pixel mem sprite p := by
  induction l generalizing s with
  | nil => cases hp
  | cons q l ih =>
    rw [List.pairwise_cons] at hl
    rw [List.foldl_cons]
    rcases List.mem_cons.1 hp with rfl | hmem
    · rw [foldl_paint_untouched cx cy mem sprite l _ (cell_pos cx cy p).1 (cell_pos cx cy p).2
        (fun a ha => (hl.1 a ha).symm), paint_vmemory]
      simp [set2]
    · rw [ih _ hl.2 hmem, paint_vmemory]
      have hne := hl.1 p hmem
      have : ¬ ((cell_pos cx cy p).1 = (cell_pos cx cy q).1 ∧
          (cell_pos cx cy p).2 = (cell_pos cx cy q).2) := by
        rintro ⟨h1, h2⟩
        exact hne (Prod.ext h1.symm h2.symm)
      simp only [set2, if_neg this]

theorem draw_row_eq (cx cy sprite : Nat) (mem : Nat → Nat) (s : State) (i : Nat)
    (hm : s.memory = mem) :
    draw_row cx cy sprite s i =
      ((List.range 8).map (Prod.mk i)).foldl (paint cx cy mem sprite) s := by
  subst hm
  rw [List.foldl_map]
  rfl

theorem draw_rows_eq (cx cy sprite : Nat) (mem : Nat → Nat) (is : List Nat) (s : State)
    (hm : s.memory = mem) :
    is.foldl (draw_row cx cy sprite) s =
      (List.product is (List.range 8)).foldl (paint cx cy mem sprite) s := by
  induction is generalizing s with
  | nil => rfl
  | cons i is ih =>
    have hc : List.product (i :: is) (List.range 8) =
        (List.range 8).map (Prod.mk i) ++ List.product is (List.range 8) :=
      List.product_cons i is (List.range 8)
    rw [List.foldl_cons, hc, List.foldl_append, ← draw_row_eq cx cy sprite mem s i hm]
    exact ih _ (by rw [draw_row_eq cx cy sprite mem s i hm, foldl_paint_memory, hm])

theorem mem_sprite_cells {rows : Nat} {p : Nat × Nat} :
    p ∈ sprite_cells rows ↔ p.1 < rows ∧ p.2 < 8 := by
  obtain ⟨i, j⟩ := p
  simp [sprite_cells, List.mem_product]

theorem sprite_cells_pairwise (cx cy rows : Nat) (hr : rows ≤ 32) :
    (sprite_cells rows).Pairwise (fun a b => cell_pos cx cy a ≠ cell_pos cx cy b) := by
  have hnd : (sprite_cells rows).Nodup :=
    List.Nodup.product (List.nodup_range rows) (List.nodup_range 8)
  refine List.Pairwise.imp_of_mem ?_ hnd
  intro a b ha hb hab heq
  rw [mem_sprite_cells] at ha hb
  obtain ⟨a1, a2⟩ := a
  obtain ⟨b1, b2⟩ := b
  simp only [cell_pos, SIPEIT_DISPLAY_HEIGHT, SIPEIT_DISPLAY_WIDTH, Prod.mk.injEq] at heq
  simp only at ha hb
  apply hab
  have h1 : a1 = b1 := by omega
  have h2 : a2 = b2 := by omega
  rw [h1, h2]

theorem foldl_paint_frame (cx cy : Nat) (mem : Nat → Nat) (sprite : Nat)
    (l : List (Nat × Nat)) (s : State) :
    (l.foldl (paint cx cy mem sprite) s).address_register = s.address_register ∧
      (l.foldl (paint cx cy mem sprite) s).waiting_for_key = s.waiting_for_key ∧
      (l.foldl (paint cx cy mem sprite) s).instruction_pointer = s.instruction_pointer := by
  induction l generalizing s with
  | nil => exact ⟨rfl, rfl, rfl⟩
  | cons p l ih =>
    rw [List.foldl_cons]
    exact ih _

/-- The state in which the draw loops end. -/
theorem execute_draw (s : State) (x y n : Nat) (hx : x < 16) (hy : y < 16) (hn : n < 16)
    (hI : s.address_register + n ≤ MEMORY_SIZE) :
    execute s (0xD000 + 0x100 * x + 0x10 * y + n) =
      .ok (INC_INSTR_POINTER ((sprite_cells n).foldl
        (paint (s.v_registers x) (s.v_registers y) s.memory s.address_register)
        { s with v_registers := set1 s.v_registers 0xF 0 })) := by
  have hop : u8 (((0xD000 + 0x100 * x + 0x10 * y + n) &&& 0xF000) >>> 12) = 0xD := by
    rw [opcode_eq]; omega
  have h0 : u8 (NIBBLE (0xD000 + 0x100 * x + 0x10 * y + n) 0) = n := by
    rw [NIBBLE_zero, u8_of_lt (by omega)]; omega
  have h1 : NIBBLE (0xD000 + 0x100 * x + 0x10 * y + n) 1 = y := by
    rw [NIBBLE_one]; omega
  have h2 : NIBBLE (0xD000 + 0x100 * x + 0x10 * y + n) 2 = x := by
    rw [NIBBLE_two]; omega
  have hd : draw s (0xD000 + 0x100 * x + 0x10 * y + n) =
      .ok ((sprite_cells n).foldl
        (paint (s.v_registers x) (s.v_registers y) s.memory s.address_register)
        { s with v_registers := set1 s.v_registers 0xF 0 }) := by
    simp only [draw, h0, h1, h2, if_pos hI]
    exact congrArg Except.ok
      (draw_rows_eq (s.v_registers x) (s.v_registers y) s.address_register s.memory _ _ rfl)
  simp [execute, hop, hd, after_switch]

theorem and_sprite_bit (b j : Nat) (hj : j < 8) :
    b &&& (0x80 >>> j) ≠ 0 ↔ b.testBit (7 - j) = true := by
  have h : (0x80 >>> j : Nat) = 2 ^ (7 - j) := by
    interval_cases j <;> rfl
  rw [h, Nat.and_two_pow]
  cases b.testBit (7 - j) <;> simp

theorem cell_pixel_eq (mem : Nat → Nat) (sprite i j : Nat) (hj : j < 8) :
    cell_pixel mem sprite (i, j) =
      if (mem (sprite + i)).testBit (7 - j) = true then 0xFFFFFFFF else 0 := by
  unfold cell_pixel
  by_cases h : (mem (sprite + i)).testBit (7 - j) = true
  · rw [if_pos ((and_sprite_bit _ _ hj).2 h), if_pos h]; rfl
  · rw [if_neg (fun h1 => h ((and_sprite_bit _ _ hj).1 h1)), if_neg h]; rfl

theorem xor_max_ne (p : Nat) : p ^^^ 0xFFFFFFFF ≠ p := by
  intro h
  have h1 : (p ^^^ 0xFFFFFFFF).testBit 0 = p.testBit 0 := by rw [h]
  rw [Nat.testBit_xor] at h1
  have h2 : (0xFFFFFFFF : Nat).testBit 0 = true := by decide
  rw [h2] at h1
  cases hp : p.testBit 0 <;> simp [hp] at h1

/-- C2: in a state that is not waiting for a key, for a draw instruction `Dxyn` whose `n` sprite
bytes `memory[I .. I+n)` lie inside memory, after the step the pixel at row `r`, column `c`
equals its old value XOR `0xFFFFFFFF` exactly when there are `i < n` and `j < 8` with
`r = (Vy + i) mod 32`, `c = (Vx + j) mod 64` and bit `7 - j` of `memory[I + i]` set, and every
other pixel keeps its old value (`Vx`, `Vy` being the register values before the step). -/
theorem draw_pixels (s : State) (x y n : Nat) (hx : x < 16) (hy : y < 16) (hn : n < 16)
    (hw : s.waiting_for_key = false)
    (hf : fetch s = .ok (0xD000 + 0x100 * x + 0x10 * y + n))
    (hI : s.address_register + n ≤ MEMORY_SIZE) :
    ∃ t, cpu_step s = .ok t ∧ ∀ r c : Nat,
      (t.vmemory r c = s.vmemory r c ^^^ 0xFFFFFFFF ↔
        ∃ i j, i < n ∧ j < 8 ∧ r = (s.v_registers y + i) % 32 ∧
          c = (s.v_registers x + j) % 64 ∧
          (s.memory (s.address_register + i)).testBit (7 - j) = true) ∧
      ((¬ ∃ i j, i < n ∧ j < 8 ∧ r = (s.v_registers y + i) % 32 ∧
          c = (s.v_registers x + j) % 64 ∧
          (s.memory (s.address_register + i)).testBit (7 - j) = true) →
        t.vmemory r c = s.vmemory r c) := by
  rw [cpu_step_eq_execute hw hf (by omega), execute_draw s x y n hx hy hn hI]
  refine ⟨_, rfl, fun r c => ?_⟩
  have hpw := sprite_cells_pairwise (s.v_registers x) (s.v_registers y) n (by omega)
  show ((List.foldl (paint (s.v_registers x) (s.v_registers y) s.memory s.address_register)
      { s with v_registers := set1 s.v_registers 0xF 0 } (sprite_cells n)).vmemory r c = _ ↔ _) ∧
    (_ → (List.foldl (paint (s.v_registers x) (s.v_registers y) s.memory s.address_register)
      { s with v_registers := set1 s.v_registers 0xF 0 } (sprite_cells n)).vmemory r c = _)
  by_cases hex : ∃ p ∈ sprite_cells n, cell_pos (s.v_registers x) (s.v_registers y) p = (r, c)
  · obtain ⟨⟨i, j⟩, hp, hpos⟩ := hex
    have hval := foldl_paint_touched (s.v_registers x) (s.v_registers y) s.memory
      s.address_register (sprite_cells n) { s with v_registers := set1 s.v_registers 0xF 0 }
      (i, j) hpw hp
    rw [hpos] at hval
    simp only at hval
    rw [hval]
    have hij := mem_sprite_cells.1 hp
    simp only at hij
    rw [cell_pixel_eq _ _ _ _ hij.2]
    simp only [cell_pos, SIPEIT_DISPLAY_HEIGHT, SIPEIT_DISPLAY_WIDTH, Prod.mk.injEq] at hpos
    have huniq : ∀ i1 j1, i1 < n → j1 < 8 → r = (s.v_registers y + i1) % 32 →
        c = (s.v_registers x + j1) % 64 → i1 = i ∧ j1 = j := by
      intro i1 j1 h1 h2 h3 h4
      constructor <;> omega
    by_cases hb : (s.memory (s.address_register + i)).testBit (7 - j) = true
    · rw [if_pos hb]
      have hyes : ∃ i j, i < n ∧ j < 8 ∧ r = (s.v_registers y + i) % 32 ∧
          c = (s.v_registers x + j) % 64 ∧
          (s.memory (s.address_register + i)).testBit (7 - j) = true :=
        ⟨i, j, hij.1, hij.2, hpos.1.symm, hpos.2.symm, hb⟩
      exact ⟨⟨fun _ => hyes, fun _ => rfl⟩, fun hno => absurd hyes hno⟩
    · rw [if_neg hb]
      have hno : ¬ ∃ i j, i < n ∧ j < 8 ∧ r = (s.v_registers y + i) % 32 ∧
          c = (s.v_registers x + j) % 64 ∧
          (s.memory (s.address_register + i)).testBit (7 - j) = true := by
        rintro ⟨i1, j1, h1, h2, h3, h4, h5⟩
        obtain ⟨e1, e2⟩ := huniq i1 j1 h1 h2 h3 h4
        subst e1 e2
        exact hb h5
      refine ⟨⟨fun h => ?_, fun h => absurd h hno⟩, fun _ => by simp⟩
      exact absurd h.symm (by simpa using xor_max_ne (s.vmemory r c))
  · have hval := foldl_paint_untouched (s.v_registers x) (s.v_registers y) s.memory
      s.address_register (sprite_cells n) { s with v_registers := set1 s.v_registers 0xF 0 } r c
      (fun p hp heq => hex ⟨p, hp, heq⟩)
    rw [hval]
    have hno : ¬ ∃ i j, i < n ∧ j < 8 ∧ r = (s.v_registers y + i) % 32 ∧
        c = (s.v_registers x + j) % 64 ∧
        (s.memory (s.address_register + i)).testBit (7 - j) = true := by
      rintro ⟨i1, j1, h1, h2, h3, h4, _⟩
      apply hex
      refine ⟨(i1, j1), mem_sprite_cells.2 ⟨h1, h2⟩, ?_⟩
      simp only [cell_pos, SIPEIT_DISPLAY_HEIGHT, SIPEIT_DISPLAY_WIDTH, h3, h4]
    exact ⟨⟨fun h => absurd h.symm (xor_max_ne _), fun h => absurd h hno⟩, fun _ => rfl⟩

theorem draw_pixels_witness :
    ∃ t, cpu_step (sample_state [0xD0, 0x11] (fun k => if k = 0 then 63 else 5) 0) = .ok t ∧
      t.vmemory 5 0 = 0xFFFFFFFF := by
  obtain ⟨t, h1, h2⟩ :=
    draw_pixels (sample_state [0xD0, 0x11] (fun k => if k = 0 then 63 else 5) 0) 0 1 1
      (by decide) (by decide) (by decide) rfl rfl (by decide)
  exact ⟨t, h1, ((h2 5 0).1).2 ⟨0, 1, by decide, by decide, by decide, by decide, by decide⟩⟩

theorem execute_draw_oob (s : State) (x y n : Nat) (hx : x < 16) (hy : y < 16) (hn : n < 16)
    (hI : ¬ s.address_register + n ≤ MEMORY_SIZE) :
    execute s (0xD000 + 0x100 * x + 0x10 * y + n) = .error .out_of_bounds := by
  have hop : u8 (((0xD000 + 0x100 * x + 0x10 * y + n) &&& 0xF000) >>> 12) = 0xD := by
    rw [opcode_eq]; omega
  have h0 : u8 (NIBBLE (0xD000 + 0x100 * x + 0x10 * y + n) 0) = n := by
    rw [NIBBLE_zero, u8_of_lt (by omega)]; omega
  have hd : draw s (0xD000 + 0x100 * x + 0x10 * y + n) = .error .out_of_bounds := by
    simp only [draw, h0, if_neg hI]
  simp [execute, hop, hd, after_switch]

/-- Painting the same cells twice at the same place restores the display. -/
theorem paint_twice (cx cy : Nat) (mem : Nat → Nat) (sprite : Nat) (l : List (Nat × Nat))
    (hl : l.Pairwise (fun a b => cell_pos cx cy a ≠ cell_pos cx cy b)) (s1 s2 : State)
    (h : s2.vmemory = (l.foldl (paint cx cy mem sprite) s1).vmemory) :
    (l.foldl (paint cx cy mem sprite) s2).vmemory = s1.vmemory := by
  funext r c
  by_cases hex : ∃ p ∈ l, cell_pos cx cy p = (r, c)
  · obtain ⟨p, hp, hpos⟩ := hex
    have e2 := foldl_paint_touched cx cy mem sprite l s2 p hl hp
    have e1 := foldl_paint_touched cx cy mem sprite l s1 p hl hp
    rw [hpos] at e1 e2
    simp only at e1 e2
    rw [e2, h, e1, Nat.xor_assoc, Nat.xor_self, Nat.xor_zero]
  · have hno : ∀ p ∈ l, cell_pos cx cy p ≠ (r, c) := fun p hp heq => hex ⟨p, hp, heq⟩
    rw [foldl_paint_untouched cx cy mem sprite l s2 r c hno, h,
      foldl_paint_untouched cx cy mem sprite l s1 r c hno]

/-- Two draws in succession, given the state `t` between them. -/
theorem draw_twice_aux (s t : State) (x y x2 y2 n : Nat) (hx : x < 16) (hy : y < 16)
    (hx2 : x2 < 16) (hy2 : y2 < 16) (hn : n < 16)
    (hf : fetch s = .ok (0xD000 + 0x100 * x + 0x10 * y + n))
    (ht : cpu_step s = .ok t)
    (hf2 : fetch t = .ok (0xD000 + 0x100 * x2 + 0x10 * y2 + n))
    (hvx : t.v_registers x2 = s.v_registers x) (hvy : t.v_registers y2 = s.v_registers y) :
    ∃ u, cpu_step t = .ok u ∧ u.vmemory = s.vmemory ∧
      t.address_register = s.address_register ∧ t.memory = s.memory := by
  cases hw : s.waiting_for_key with
  | true =>
    rw [cpu_step_waiting hw] at ht
    cases ht
    exact ⟨s, cpu_step_waiting hw, rfl, rfl, rfl⟩
  | false =>
    rw [cpu_step_eq_execute hw hf (by omega)] at ht
    by_cases hI : s.address_register + n ≤ MEMORY_SIZE
    · rw [execute_draw s x y n hx hy hn hI] at ht
      cases ht
      have hfr := foldl_paint_frame (s.v_registers x) (s.v_registers y) s.memory
        s.address_register (sprite_cells n) { s with v_registers := set1 s.v_registers 0xF 0 }
      have hmem := foldl_paint_memory (s.v_registers x) (s.v_registers y) s.memory
        s.address_register (sprite_cells n) { s with v_registers := set1 s.v_registers 0xF 0 }
      have hw2 : (INC_INSTR_POINTER ((sprite_cells n).foldl
          (paint (s.v_registers x) (s.v_registers y) s.memory s.address_register)
          { s with v_registers := set1 s.v_registers 0xF 0 })).waiting_for_key = false := by
        exact hfr.2.1.trans hw
      have ha : (INC_INSTR_POINTER ((sprite_cells n).foldl
          (paint (s.v_registers x) (s.v_registers y) s.memory s.address_register)
          { s with v_registers := set1 s.v_registers 0xF 0 })).address_register =
          s.address_register := hfr.1
      have hm : (INC_INSTR_POINTER ((sprite_cells n).foldl
          (paint (s.v_registers x) (s.v_registers y) s.memory s.address_register)
          { s with v_registers := set1 s.v_registers 0xF 0 })).memory = s.memory := hmem
      rw [cpu_step_eq_execute hw2 hf2 (by omega),
        execute_draw _ x2 y2 n hx2 hy2 hn (by rw [ha]; exact hI), hvx, hvy, ha, hm]
      refine ⟨_, rfl, ?_, rfl, rfl⟩
      exact paint_twice (s.v_registers x) (s.v_registers y) s.memory s.address_register
        (sprite_cells n)
        (sprite_cells_pairwise (s.v_registers x) (s.v_registers y) n (by omega))
        { s with v_registers := set1 s.v_registers 0xF 0 } _ rfl
    · rw [execute_draw_oob s x y n hx hy hn hI] at ht
      cases ht

theorem draw_first_ok (s : State) (x y n : Nat) (hx : x < 16) (hy : y < 16) (hn : n < 16)
    (hf : fetch s = .ok (0xD000 + 0x100 * x + 0x10 * y + n))
    (hI : s.address_register + n ≤ MEMORY_SIZE) :
    ∃ t, cpu_step s = .ok t := by
  cases hw : s.waiting_for_key with
  | true => exact ⟨s, cpu_step_waiting hw⟩
  | false =>
    rw [cpu_step_eq_execute hw hf (by omega), execute_draw s x y n hx hy hn hI]
    exact ⟨_, rfl⟩

/-- C3: let a state `s` fetch a draw instruction `Dxyn` whose sprite bytes lie inside memory,
and let the state after that step fetch a draw instruction with the same `n` and the same
position values (the registers it names hold, after the first draw, the values `Vx` and `Vy`
had before it).  Then both steps return, and the display after the second draw equals the
display of `s`; the address register and the memory, hence the sprite bytes, are the same for
both draws. -/
theorem draw_twice_restores (s : State) (x y x2 y2 n : Nat) (hx : x < 16) (hy : y < 16)
    (hx2 : x2 < 16) (hy2 : y2 < 16) (hn : n < 16)
    (hf : fetch s = .ok (0xD000 + 0x100 * x + 0x10 * y + n))
    (hI : s.address_register + n ≤ MEMORY_SIZE)
    (hf2 : fetch (result_or (cpu_step s) s) = .ok (0xD000 + 0x100 * x2 + 0x10 * y2 + n))
    (hvx : (result_or (cpu_step s) s).v_registers x2 = s.v_registers x)
    (hvy : (result_or (cpu_step s) s).v_registers y2 = s.v_registers y) :
    ∃ t u, cpu_step s = .ok t ∧ cpu_step t = .ok u ∧ u.vmemory = s.vmemory ∧
      t.address_register = s.address_register ∧ t.memory = s.memory := by
  obtain ⟨t, ht⟩ := draw_first_ok s x y n hx hy hn hf hI
  rw [ht] at hf2 hvx hvy
  obtain ⟨u, hu, h1, h2, h3⟩ :=
    draw_twice_aux s t x y x2 y2 n hx hy hx2 hy2 hn hf ht hf2 hvx hvy
  exact ⟨t, u, ht, hu, h1, h2, h3⟩

theorem draw_twice_restores_witness :
    ∃ t u, cpu_step (sample_state [0xD0, 0x15, 0xD0, 0x15] (fun k => if k = 0 then 62 else 30) 0)
        = .ok t ∧ cpu_step t = .ok u ∧
      u.vmemory =
        (sample_state [0xD0, 0x15, 0xD0, 0x15] (fun k => if k = 0 then 62 else 30) 0).vmemory ∧
      t.address_register = 0 ∧
      t.memory =
        (sample_state [0xD0, 0x15, 0xD0, 0x15] (fun k => if k = 0 then 62 else 30) 0).memory :=
  draw_twice_restores
    (sample_state [0xD0, 0x15, 0xD0, 0x15] (fun k => if k = 0 then 62 else 30) 0)
    0 1 0 1 5 (by decide) (by decide) (by decide) (by decide) (by decide) rfl (by decide)
    rfl rfl rfl

/-- C1: the code at the failing input.  From the initial state, the program `00E0` (clear the
display), `A300` (address register := 0x300, where memory holds zero bytes), `D001` (draw one
sprite row) ends with `VF = 1`, although no display pixel was on before the draw; the display
pixels stay off. -/
theorem draw_zero_sprite_sets_flag :
    (cpu_steps 3 (initial_state [0x00, 0xE0, 0xA3, 0x00, 0xD0, 0x01] (fun _ => 0))).toOption.map
      (fun t => (t.v_registers 0xF, t.memory 0x300, t.vmemory 0 0, t.vmemory 0 7)) =
      some (1, 0, 0, 0) := by
  decide

/-! ## Calls and the stack -/

theorem execute_call (s : State) (nnn : Nat) (hn : nnn < 0x1000) :
    execute s (0x2000 + nnn) =
      if s.stack_index < 16 then
        .ok { s with stack := set1 s.stack s.stack_index (u16 (s.instruction_pointer + 2)),
                     stack_index := u8 (s.stack_index + 1),
                     instruction_pointer := nnn }
      else .error .out_of_bounds := by
  have hop : u8 (((0x2000 + nnn) &&& 0xF000) >>> 12) = 2 := by
    rw [opcode_eq]; omega
  have ht : TRIBBLE (0x2000 + nnn) 0 = nnn := by
    rw [TRIBBLE_zero]; omega
  by_cases h : s.stack_index < 16
  · simp [execute, hop, ht, stack_push, NEXT_INSTR, STACK_SIZE, h]
  · simp [execute, hop, ht, stack_push, NEXT_INSTR, STACK_SIZE, h]

theorem cpu_steps_succ_last (n : Nat) (s : State) :
    cpu_steps (n + 1) s =
      match cpu_steps n s with
      | .ok t => cpu_step t
      | .error e => .error e := by
  induction n generalizing s with
  | zero =>
    simp only [cpu_steps]
    cases cpu_step s <;> rfl
  | succ n ih =>
    rw [cpu_steps]
    cases h : cpu_step s with
    | error e => simp [cpu_steps, h]
    | ok t =>
      simp only []
      rw [ih t]
      simp [cpu_steps, h]

theorem fetch_congr {s t : State} (hm : t.memory = s.memory) :
    fetch t = fetch { s with instruction_pointer := t.instruction_pointer } := by
  simp [fetch, hm]

/-- The state after `k ≤ 16` nested calls from an empty stack. -/
theorem calls_invariant (s : State) (tgt : Nat → Nat)
    (hw : s.waiting_for_key = false) (h0 : s.stack_index = 0)
    (hpc : s.instruction_pointer = tgt 0)
    (hcall : ∀ i, i ≤ 16 → tgt (i + 1) < 0x1000 ∧
      fetch { s with instruction_pointer := tgt i } = .ok (0x2000 + tgt (i + 1)))
    (k : Nat) (hk : k ≤ 16) :
    ∃ t, cpu_steps k s = .ok t ∧ t.stack_index = k ∧ t.instruction_pointer = tgt k ∧
      (∀ i, i < k → t.stack i = tgt i + 2) ∧ t.memory = s.memory ∧
      t.waiting_for_key = false := by
  induction k with
  | zero => exact ⟨s, rfl, h0, hpc, fun i hi => absurd hi (Nat.not_lt_zero i), rfl, hw⟩
  | succ k ih =>
    obtain ⟨t, hrun, hidx, hip, hstk, hmem, hwt⟩ := ih (by omega)
    obtain ⟨hlt, hfe⟩ := hcall k (by omega)
    have hft : fetch t = .ok (0x2000 + tgt (k + 1)) := by
      rw [fetch_congr hmem, hip]; exact hfe
    have hinc := inc_of_fetch hft
    rw [cpu_steps_succ_last, hrun]
    simp only []
    rw [cpu_step_eq_execute hwt hft (by omega), execute_call t _ hlt,
      if_pos (by rw [hidx]; omega)]
    refine ⟨_, rfl, ?_, rfl, ?_, hmem, hwt⟩
    · show u8 (t.stack_index + 1) = k + 1
      rw [hidx]; exact u8_of_lt (by omega)
    · intro i hi
      show set1 t.stack t.stack_index (u16 (t.instruction_pointer + 2)) i = tgt i + 2
      unfold set1
      by_cases hik : i = t.stack_index
      · rw [if_pos hik, hinc, hip, hik, hidx]
      · rw [if_neg hik]
        exact hstk i (by omega)

/-- C9 as amended: starting from an empty call stack, 16 nested `2nnn` calls all succeed, each
storing (program counter + 2) in the next stack entry and setting the program counter to `nnn`,
so that the stack depth reaches 16.  `stack_push` makes no capacity check: a 17th call with the
stack at capacity indexes the 16-entry array `stack` at 16, outside its bounds; it is not a
failure exit of the program. -/
theorem sixteen_calls (s : State) (tgt : Nat → Nat)
    (hw : s.waiting_for_key = false) (h0 : s.stack_index = 0)
    (hpc : s.instruction_pointer = tgt 0)
    (hcall : ∀ i, i ≤ 16 → tgt (i + 1) < 0x1000 ∧
      fetch { s with instruction_pointer := tgt i } = .ok (0x2000 + tgt (i + 1))) :
    (∀ k, k ≤ 16 → ∃ t, cpu_steps k s = .ok t ∧ t.stack_index = k ∧
        t.instruction_pointer = tgt k ∧ ∀ i, i < k → t.stack i = tgt i + 2) ∧
      cpu_steps 17 s = .error .out_of_bounds := by
  constructor
  · intro k hk
    obtain ⟨t, h1, h2, h3, h4, _, _⟩ := calls_invariant s tgt hw h0 hpc hcall k hk
    exact ⟨t, h1, h2, h3, h4⟩
  · obtain ⟨t, hrun, hidx, hip, _, hmem, hwt⟩ :=
      calls_invariant s tgt hw h0 hpc hcall 16 (le_refl 16)
    obtain ⟨hlt, hfe⟩ := hcall 16 (le_refl 16)
    have hft : fetch t = .ok (0x2000 + tgt 17) := by
      rw [fetch_congr hmem, hip]; exact hfe
    rw [cpu_steps_succ_last, hrun]
    simp only []
    rw [cpu_step_eq_execute hwt hft (by omega), execute_call t _ hlt,
      if_neg (by rw [hidx]; omega)]

theorem sixteen_calls_witness :
    (∀ k, k ≤ 16 → ∃ t, cpu_steps k (initial_state [0x22, 0x00] (fun _ => 0)) = .ok t ∧
        t.stack_index = k ∧ t.instruction_pointer = 0x200 ∧
        ∀ i, i < k → t.stack i = 0x200 + 2) ∧
      cpu_steps 17 (initial_state [0x22, 0x00] (fun _ => 0)) = .error .out_of_bounds :=
  sixteen_calls (initial_state [0x22, 0x00] (fun _ => 0)) (fun _ => 0x200) rfl rfl rfl
    (by
      intro i _
      refine ⟨?_, ?_⟩
      · show 0x200 < 0x1000
        decide
      · show fetch { initial_state [0x22, 0x00] (fun _ => 0) with instruction_pointer := 0x200 } =
          .ok (0x2000 + 0x200)
        rfl)

/-- C9: the claim fails at the 17th call.  After the 16 calls of the program `2200` (a call of
its own address 0x200) the stack holds 16 return addresses; the 17th `2200` does not end in a
stack-overflow failure that would leave the program counter alone: the code has no such exit,
and the step is the store `stack[16] = address` outside the array. -/
theorem call_17_not_rejected :
    (cpu_steps 16 (initial_state [0x22, 0x00] (fun _ => 0))).toOption.map
        (fun t => (t.stack_index, t.instruction_pointer, t.stack 0, t.stack 15)) =
        some (16, 0x200, 0x202, 0x202) ∧
      fault_of (cpu_steps 17 (initial_state [0x22, 0x00] (fun _ => 0))) =
        some Fault.out_of_bounds := by
  decide

/-! ## The flag computed by the draw loops -/

theorem paint_flag (cx cy : Nat) (mem : Nat → Nat) (sprite : Nat) (s : State) (p : Nat × Nat) :
    (paint cx cy mem sprite s p).v_registers 0xF =
      if s.v_registers 0xF ≠ 0 ∨
          s.vmemory (cell_pos cx cy p).1 (cell_pos cx cy p).2 ^^^ cell_pixel mem sprite p = 0
      then 1 else 0 := by
  simp only [paint, draw_pixel, set1, cell_pos, cell_pixel]
  rfl

/-- After the draw loops `VF` is nonzero exactly when it was nonzero before or some visited cell
produced the pixel value 0; and it is 0 or 1 when it was so before. -/
theorem foldl_paint_flag (cx cy : Nat) (mem : Nat → Nat) (sprite : Nat)
    (l : List (Nat × Nat)) (s : State)
    (hl : l.Pairwise (fun a b => cell_pos cx cy a ≠ cell_pos cx cy b)) :
    ((l.foldl (paint cx cy mem sprite) s).v_registers 0xF ≠ 0 ↔
        (s.v_registers 0xF ≠ 0 ∨ ∃ p ∈ l,
          s.vmemory (cell_pos cx cy p).1 (cell_pos cx cy p).2 ^^^ cell_pixel mem sprite p = 0)) ∧
      (s.v_registers 0xF ≤ 1 → (l.foldl (paint cx cy mem sprite) s).v_registers 0xF ≤ 1) := by
  induction l generalizing s with
  | nil => simp
  | cons q l ih =>
    rw [List.pairwise_cons] at hl
    rw [List.foldl_cons]
    obtain ⟨ih1, ih2⟩ := ih (paint cx cy mem sprite s q) hl.2
    have hvm : ∀ p ∈ l, (paint cx cy mem sprite s q).vmemory (cell_pos cx cy p).1
        (cell_pos cx cy p).2 = s.vmemory (cell_pos cx cy p).1 (cell_pos cx cy p).2 := by
      intro p hp
      rw [paint_vmemory]
      have hne := hl.1 p hp
      have : ¬ ((cell_pos cx cy p).1 = (cell_pos cx cy q).1 ∧
          (cell_pos cx cy p).2 = (cell_pos cx cy q).2) := by
        rintro ⟨h1, h2⟩
        exact hne (Prod.ext h1.symm h2.symm)
      simp only [set2, if_neg this]
    have hq := paint_flag cx cy mem sprite s q
    constructor
    · rw [ih1, hq]
      constructor
      · rintro (h | ⟨p, hp, hz⟩)
        · by_cases hc : s.v_registers 0xF ≠ 0 ∨
              s.vmemory (cell_pos cx cy q).1 (cell_pos cx cy q).2 ^^^ cell_pixel mem sprite q = 0
          · rcases hc with hc | hc
            · exact Or.inl hc
            · exact Or.inr ⟨q, List.mem_cons_self _ _, hc⟩
          · rw [if_neg hc] at h
            exact absurd rfl h
        · rw [hvm p hp] at hz
          exact Or.inr ⟨p, List.mem_cons_of_mem _ hp, hz⟩
      · rintro (h | ⟨p, hp, hz⟩)
        · left
          rw [if_pos (Or.inl h)]
          exact Nat.one_ne_zero
        · rcases List.mem_cons.1 hp with rfl | hmem
          · left
            rw [if_pos (Or.inr hz)]
            exact Nat.one_ne_zero
          · right
            exact ⟨p, hmem, by rw [hvm p hmem]; exact hz⟩
    · intro _
      apply ih2
      rw [hq]
      split <;> omega

/-- What the code computes for `VF` in a draw: in a state that is not waiting for
a key, for a draw instruction `Dxyn` whose sprite bytes lie inside memory, after the step `VF`
is 1 exactly when some pixel visited by the loops holds the value 0 after the draw (whether it
was on before or not), and is 0 otherwise. -/
theorem draw_flag_code (s : State) (x y n : Nat) (hx : x < 16) (hy : y < 16) (hn : n < 16)
    (hw : s.waiting_for_key = false)
    (hf : fetch s = .ok (0xD000 + 0x100 * x + 0x10 * y + n))
    (hI : s.address_register + n ≤ MEMORY_SIZE) :
    ∃ t, cpu_step s = .ok t ∧
      (t.v_registers 0xF = 1 ↔ ∃ i j, i < n ∧ j < 8 ∧
        t.vmemory ((s.v_registers y + i) % 32) ((s.v_registers x + j) % 64) = 0) ∧
      (t.v_registers 0xF = 0 ∨ t.v_registers 0xF = 1) := by
  rw [cpu_step_eq_execute hw hf (by omega), execute_draw s x y n hx hy hn hI]
  refine ⟨_, rfl, ?_⟩
  have hpw := sprite_cells_pairwise (s.v_registers x) (s.v_registers y) n (by omega)
  obtain ⟨h1, h2⟩ := foldl_paint_flag (s.v_registers x) (s.v_registers y) s.memory
    s.address_register (sprite_cells n) { s with v_registers := set1 s.v_registers 0xF 0 } hpw
  have hle := h2 (by simp [set1])
  have hzero : ({ s with v_registers := set1 s.v_registers 0xF 0 } : State).v_registers 0xF = 0 := by
    simp [set1]
  have hiff : (∃ p ∈ sprite_cells n,
      ({ s with v_registers := set1 s.v_registers 0xF 0 } : State).vmemory
        (cell_pos (s.v_registers x) (s.v_registers y) p).1
        (cell_pos (s.v_registers x) (s.v_registers y) p).2 ^^^
        cell_pixel s.memory s.address_register p = 0) ↔
      ∃ i j, i < n ∧ j < 8 ∧
        ((sprite_cells n).foldl
          (paint (s.v_registers x) (s.v_registers y) s.memory s.address_register)
          { s with v_registers := set1 s.v_registers 0xF 0 }).vmemory
          ((s.v_registers y + i) % 32) ((s.v_registers x + j) % 64) = 0 := by
    constructor
    · rintro ⟨⟨i, j⟩, hp, hz⟩
      have hij := mem_sprite_cells.1 hp
      refine ⟨i, j, hij.1, hij.2, ?_⟩
      have e := foldl_paint_touched (s.v_registers x) (s.v_registers y) s.memory
        s.address_register (sprite_cells n) { s with v_registers := set1 s.v_registers 0xF 0 }
        (i, j) hpw hp
      rw [hz] at e
      exact e
    · rintro ⟨i, j, hi, hj, hz⟩
      have hp : (i, j) ∈ sprite_cells n := mem_sprite_cells.2 ⟨hi, hj⟩
      refine ⟨(i, j), hp, ?_⟩
      have e := foldl_paint_touched (s.v_registers x) (s.v_registers y) s.memory
        s.address_register (sprite_cells n) { s with v_registers := set1 s.v_registers 0xF 0 }
        (i, j) hpw hp
      rw [← e]
      exact hz
  rw [hzero] at h1
  have key : (((sprite_cells n).foldl
      (paint (s.v_registers x) (s.v_registers y) s.memory s.address_register)
      { s with v_registers := set1 s.v_registers 0xF 0 }).v_registers 0xF = 1 ↔
        ∃ i j, i < n ∧ j < 8 ∧
        ((sprite_cells n).foldl
          (paint (s.v_registers x) (s.v_registers y) s.memory s.address_register)
          { s with v_registers := set1 s.v_registers 0xF 0 }).vmemory
          ((s.v_registers y + i) % 32) ((s.v_registers x + j) % 64) = 0) ∧
    (((sprite_cells n).foldl
      (paint (s.v_registers x) (s.v_registers y) s.memory s.address_register)
      { s with v_registers := set1 s.v_registers 0xF 0 }).v_registers 0xF = 0 ∨
     ((sprite_cells n).foldl
      (paint (s.v_registers x) (s.v_registers y) s.memory s.address_register)
      { s with v_registers := set1 s.v_registers 0xF 0 }).v_registers 0xF = 1) := by
    refine ⟨⟨fun h => hiff.1 ?_, fun h => ?_⟩, by omega⟩
    · rcases h1.1 (by omega) with h0 | h0
      · exact absurd rfl h0
      · exact h0
    · have := h1.2 (Or.inr (hiff.2 h))
      omega
  exact key

/-! ## Key events -/

theorem key_down_registers (s : State) (key : Nat) :
    (key_down s key).v_registers = s.v_registers := by
  unfold key_down
  simp only []
  split <;> rfl

/-- C11: the code at the failing input.  From the initial state the program `F30A` sets
`waiting_for_key` and records 3 in `v_register_key_index`; the key-down handler for key 5 then
clears `waiting_for_key`, but stores the key code in `v_register_key_index`, not in `V3`, which
still holds 0; the step after it (`6407`) executes normally with `V3 = 0`. -/
theorem key_down_misses_register :
    (cpu_step (initial_state [0xF3, 0x0A, 0x64, 0x07] (fun _ => 0))).toOption.map
        (fun t => (t.waiting_for_key, t.v_register_key_index,
          (key_down t 5).waiting_for_key, (key_down t 5).v_registers 3,
          (key_down t 5).v_register_key_index, (key_down t 5).keys 5)) =
        some (true, 3, false, 0, 5, 0xFF) ∧
      ((cpu_step (initial_state [0xF3, 0x0A, 0x64, 0x07] (fun _ => 0))).toOption.bind
        (fun t => (cpu_step (key_down t 5)).toOption)).map
        (fun u => (u.v_registers 3, u.v_registers 4, u.instruction_pointer)) =
        some (0, 7, 516) := by
  decide

/-! ## Register dump, register load and BCD -/

theorem execute_reg_dump (s : State) (x : Nat) (hx : x < 16)
    (hI : s.address_register + x < MEMORY_SIZE) :
    execute s (0xF055 + 0x100 * x) =
      .ok { s with
        memory := fun a =>
          if s.address_register ≤ a ∧ a < s.address_register + (x + 1)
          then s.v_registers (a - s.address_register) else s.memory a,
        instruction_pointer := u16 (s.instruction_pointer + 2) } := by
  have hop : u8 (((0xF055 + 0x100 * x) &&& 0xF000) >>> 12) = 0xF := by
    rw [opcode_eq]; omega
  have h0 : u8 (BYTE (0xF055 + 0x100 * x) 0) = 0x55 := by
    rw [BYTE_zero, u8_of_lt (by omega)]; omega
  have h2 : u8 (NIBBLE (0xF055 + 0x100 * x) 2) = x := by
    rw [NIBBLE_two, u8_of_lt (by omega)]; omega
  have hb : s.address_register + (x + 1) ≤ MEMORY_SIZE := by omega
  simp [execute, hop, misc, h0, h2, hb, after_switch, INC_INSTR_POINTER]

theorem execute_reg_load (s : State) (x : Nat) (hx : x < 16)
    (hI : s.address_register + x < MEMORY_SIZE) :
    execute s (0xF065 + 0x100 * x) =
      .ok { s with
        v_registers := fun k =>
          if k < x + 1 then s.memory (s.address_register + k) else s.v_registers k,
        instruction_pointer := u16 (s.instruction_pointer + 2) } := by
  have hop : u8 (((0xF065 + 0x100 * x) &&& 0xF000) >>> 12) = 0xF := by
    rw [opcode_eq]; omega
  have h0 : u8 (BYTE (0xF065 + 0x100 * x) 0) = 0x65 := by
    rw [BYTE_zero, u8_of_lt (by omega)]; omega
  have h2 : u8 (NIBBLE (0xF065 + 0x100 * x) 2) = x := by
    rw [NIBBLE_two, u8_of_lt (by omega)]; omega
  have hb : s.address_register + (x + 1) ≤ MEMORY_SIZE := by omega
  simp [execute, hop, misc, h0, h2, hb, after_switch, INC_INSTR_POINTER]

/-- C13: let `Fx55` execute in a state `s` with `I + x` inside memory, and let `Fx65` with the
same `x` execute in any later state `t` whose address register equals that of `s` and whose
bytes `memory[I .. I+x]` are those the dump left.  The dump stores `V0..Vx` of `s` at
`memory[I .. I+x]`; the load sets `V0..Vx` to the values they had in `s`, whatever `t` held in
them, and leaves `V(x+1)..VF` as they are in `t`; neither instruction changes the address
register. -/
theorem dump_load_roundtrip (s t : State) (x : Nat) (hx : x < 16)
    (hws : s.waiting_for_key = false) (hfs : fetch s = .ok (0xF055 + 0x100 * x))
    (hI : s.address_register + x < MEMORY_SIZE)
    (hwt : t.waiting_for_key = false) (hft : fetch t = .ok (0xF065 + 0x100 * x))
    (hIt : t.address_register = s.address_register)
    (hmem : ∀ k, k ≤ x → t.memory (s.address_register + k) =
      (result_or (cpu_step s) s).memory (s.address_register + k)) :
    ∃ s1 u, cpu_step s = .ok s1 ∧ cpu_step t = .ok u ∧
      (∀ k, k ≤ x → s1.memory (s.address_register + k) = s.v_registers k) ∧
      (∀ k, k ≤ x → u.v_registers k = s.v_registers k) ∧
      (∀ k, x < k → u.v_registers k = t.v_registers k) ∧
      s1.address_register = s.address_register ∧
      u.address_register = t.address_register := by
  have hs : cpu_step s = .ok { s with
        memory := fun a =>
          if s.address_register ≤ a ∧ a < s.address_register + (x + 1)
          then s.v_registers (a - s.address_register) else s.memory a,
        instruction_pointer := u16 (s.instruction_pointer + 2) } := by
    rw [cpu_step_eq_execute hws hfs (by omega), execute_reg_dump s x hx hI]
  have hdump : ∀ k, k ≤ x →
      (fun a => if s.address_register ≤ a ∧ a < s.address_register + (x + 1)
        then s.v_registers (a - s.address_register) else s.memory a)
        (s.address_register + k) = s.v_registers k := by
    intro k hk
    have hc : s.address_register ≤ s.address_register + k ∧
        s.address_register + k < s.address_register + (x + 1) := by omega
    simp only [if_pos hc, Nat.add_sub_cancel_left]
  rw [hs] at hmem
  rw [hs, cpu_step_eq_execute hwt hft (by omega),
    execute_reg_load t x hx (by rw [hIt]; exact hI)]
  refine ⟨_, _, rfl, rfl, hdump, ?_, ?_, rfl, rfl⟩
  · intro k hk
    show (if k < x + 1 then t.memory (t.address_register + k) else t.v_registers k) = _
    rw [if_pos (by omega), hIt, hmem k hk]
    exact hdump k hk
  · intro k hk
    show (if k < x + 1 then t.memory (t.address_register + k) else t.v_registers k) = _
    rw [if_neg (by omega)]

theorem dump_load_roundtrip_witness :
    ∃ u, cpu_step (result_or (cpu_steps 3 dump_load_sample) dump_load_sample) = .ok u ∧
      (result_or (cpu_steps 3 dump_load_sample) dump_load_sample).v_registers 0 = 0 ∧
      (result_or (cpu_steps 3 dump_load_sample) dump_load_sample).v_registers 1 = 0 ∧
      u.v_registers 0 = 10 ∧ u.v_registers 1 = 11 ∧ u.v_registers 2 = 12 ∧
      u.v_registers 3 = 13 ∧ u.address_register = 0x300 := by
  obtain ⟨s1, u, _, h2, _, h4, h5, _, h7⟩ :=
    dump_load_roundtrip dump_load_sample
      (result_or (cpu_steps 3 dump_load_sample) dump_load_sample) 2
      (by decide) rfl rfl (by decide) rfl rfl rfl (fun k _ => rfl)
  exact ⟨u, h2, rfl, rfl, h4 0 (by decide), h4 1 (by decide), h4 2 (by decide),
    (h5 3 (by decide)).trans rfl, h7.trans rfl⟩

theorem execute_bcd (s : State) (x : Nat) (hx : x < 16)
    (hI : s.address_register + 2 < MEMORY_SIZE) :
    execute s (0xF033 + 0x100 * x) =
      .ok { s with
        memory := set1 (set1 (set1 s.memory s.address_register (u8 (s.v_registers x / 100)))
          (s.address_register + 1) (u8 (s.v_registers x / 10 % 10)))
          (s.address_register + 2) (u8 (s.v_registers x % 10)),
        instruction_pointer := u16 (s.instruction_pointer + 2) } := by
  have hop : u8 (((0xF033 + 0x100 * x) &&& 0xF000) >>> 12) = 0xF := by
    rw [opcode_eq]; omega
  have h0 : u8 (BYTE (0xF033 + 0x100 * x) 0) = 0x33 := by
    rw [BYTE_zero, u8_of_lt (by omega)]; omega
  have h2 : u8 (NIBBLE (0xF033 + 0x100 * x) 2) = x := by
    rw [NIBBLE_two, u8_of_lt (by omega)]; omega
  simp [execute, hop, misc, h0, h2, hI, after_switch, INC_INSTR_POINTER]

/-- C14: in a state that is not waiting for a key, with `I + 2` inside memory and `Vx` an 8-bit
value, after `Fx33` the bytes `memory[I]`, `memory[I+1]`, `memory[I+2]` are the hundreds, tens
and units digits of `Vx` (at most 2, 9 and 9, with `100 * memory[I] + 10 * memory[I+1] +
memory[I+2] = Vx`); every other memory byte and all registers are unchanged. -/
theorem bcd_digits (s : State) (x : Nat) (hx : x < 16)
    (hw : s.waiting_for_key = false) (hf : fetch s = .ok (0xF033 + 0x100 * x))
    (hI : s.address_register + 2 < MEMORY_SIZE) (hv : s.v_registers x < 256) :
    ∃ t, cpu_step s = .ok t ∧
      t.memory s.address_register ≤ 2 ∧ t.memory (s.address_register + 1) ≤ 9 ∧
      t.memory (s.address_register + 2) ≤ 9 ∧
      100 * t.memory s.address_register + 10 * t.memory (s.address_register + 1) +
        t.memory (s.address_register + 2) = s.v_registers x ∧
      (∀ a, a ≠ s.address_register → a ≠ s.address_register + 1 →
        a ≠ s.address_register + 2 → t.memory a = s.memory a) ∧
      t.v_registers = s.v_registers ∧ t.address_register = s.address_register := by
  rw [cpu_step_eq_execute hw hf (by omega), execute_bcd s x hx hI]
  have e0 : set1 (set1 (set1 s.memory s.address_register (u8 (s.v_registers x / 100)))
      (s.address_register + 1) (u8 (s.v_registers x / 10 % 10)))
      (s.address_register + 2) (u8 (s.v_registers x % 10)) s.address_register =
      s.v_registers x / 100 := by
    simp only [set1, u8]
    rw [if_neg (by omega), if_neg (by omega), if_true]
    omega
  have e1 : set1 (set1 (set1 s.memory s.address_register (u8 (s.v_registers x / 100)))
      (s.address_register + 1) (u8 (s.v_registers x / 10 % 10)))
      (s.address_register + 2) (u8 (s.v_registers x % 10)) (s.address_register + 1) =
      s.v_registers x / 10 % 10 := by
    simp only [set1, u8]
    rw [if_neg (by omega), if_true]
    omega
  have e2 : set1 (set1 (set1 s.memory s.address_register (u8 (s.v_registers x / 100)))
      (s.address_register + 1) (u8 (s.v_registers x / 10 % 10)))
      (s.address_register + 2) (u8 (s.v_registers x % 10)) (s.address_register + 2) =
      s.v_registers x % 10 := by
    simp only [set1, u8]
    rw [if_true]
    omega
  refine ⟨_, rfl, ?_, ?_, ?_, ?_, ?_, rfl, rfl⟩
  · show set1 _ _ _ _ ≤ 2
    rw [e0]; omega
  · show set1 _ _ _ _ ≤ 9
    rw [e1]; omega
  · show set1 _ _ _ _ ≤ 9
    rw [e2]; omega
  · show 100 * set1 _ _ _ _ + 10 * set1 _ _ _ _ + set1 _ _ _ _ = _
    rw [e0, e1, e2]; omega
  · intro a h0 h1 h2
    show set1 _ _ _ a = _
    simp only [set1, if_neg h0, if_neg h1, if_neg h2]

theorem bcd_digits_witness :
    ∃ t, cpu_step (sample_state [0xF4, 0x33] (fun k => if k = 4 then 207 else 1) 0x300) = .ok t ∧
      t.memory 0x300 = 2 ∧ t.memory 0x301 = 0 ∧ t.memory 0x302 = 7 := by
  obtain ⟨t, h1, h2, h3, h4, h5, _⟩ :=
    bcd_digits (sample_state [0xF4, 0x33] (fun k => if k = 4 then 207 else 1) 0x300) 4
      (by decide) rfl rfl (by decide) (by decide)
  have e : (sample_state [0xF4, 0x33] (fun k => if k = 4 then 207 else 1) 0x300).v_registers 4
      = 207 := rfl
  have a : (sample_state [0xF4, 0x33] (fun k => if k = 4 then 207 else 1) 0x300).address_register
      = 0x300 := rfl
  rw [e, a] at h5
  rw [a] at h2 h3 h4
  exact ⟨t, h1, (by omega : t.memory 0x300 = 2), (by omega : t.memory (0x300 + 1) = 0),
    (by omega : t.memory (0x300 + 2) = 7)⟩

/-! ## The zero instruction and a sample program -/

theorem cpu_step_zero {s : State} (hf : fetch s = .ok 0) : cpu_step s = .ok s := by
  cases hw : s.waiting_for_key with
  | true => exact cpu_step_waiting hw
  | false => simp [cpu_step, hw, hf]

/-- C15: from the initial state with the bytes `60 0A 61 05 80 14 00 00` at address 512, the
first three steps fetch `0x600A`, `0x6105`, `0x8014` (high byte first) and end with `V0 = 15`,
`V1 = 5`, `VF = 0` and program counter 518; the fourth step fetches `0x0000` and returns the
state unchanged, program counter included. -/
theorem scenario_add_then_zero :
    fetch scenario_state = .ok 0x600A ∧
      ∃ t1 t2 t3, cpu_step scenario_state = .ok t1 ∧ fetch t1 = .ok 0x6105 ∧
        cpu_step t1 = .ok t2 ∧ fetch t2 = .ok 0x8014 ∧
        cpu_step t2 = .ok t3 ∧
        t3.v_registers 0 = 15 ∧ t3.v_registers 1 = 5 ∧ t3.v_registers 0xF = 0 ∧
        t3.instruction_pointer = 518 ∧ t3.waiting_for_key = false ∧
        fetch t3 = .ok 0x0000 ∧ cpu_step t3 = .ok t3 := by
  refine ⟨rfl, result_or (cpu_steps 1 scenario_state) scenario_state,
    result_or (cpu_steps 2 scenario_state) scenario_state,
    result_or (cpu_steps 3 scenario_state) scenario_state,
    rfl, rfl, rfl, rfl, rfl, rfl, rfl, rfl, rfl, rfl, rfl, ?_⟩
  exact cpu_step_zero rfl

/-! ## Timers -/

/-- C16: for 8-bit timer values, when `update_timers` reaches its elapsed-time test and the
test succeeds, each of the two timers goes from `t` to `t - 1` when `t > 0` and stays 0 when
`t = 0`, independently of the other; in every other case (first invocation, or interval not
elapsed) the state is returned unchanged; and nothing but the two timers is ever changed. -/
theorem update_timers_decrement (s : State) (prev_clock : Nat) (elapsed : Bool)
    (clock_first clock_second : Nat)
    (hd : s.delay_timer < 256) (hs : s.sound_timer < 256) :
    ((prev_clock ≠ 0 ∧ elapsed = true) →
        (update_timers s prev_clock elapsed clock_first clock_second).1 =
          { s with delay_timer := if s.delay_timer > 0 then s.delay_timer - 1 else 0,
                   sound_timer := if s.sound_timer > 0 then s.sound_timer - 1 else 0 }) ∧
      (¬ (prev_clock ≠ 0 ∧ elapsed = true) →
        (update_timers s prev_clock elapsed clock_first clock_second).1 = s) := by
  constructor
  · rintro ⟨hp, he⟩
    have e1 : u8 (s.delay_timer - (if s.delay_timer ≠ 0 then 1 else 0) * 1) =
        if s.delay_timer > 0 then s.delay_timer - 1 else 0 := by
      unfold u8
      split <;> split <;> omega
    have e2 : u8 (s.sound_timer - (if s.sound_timer ≠ 0 then 1 else 0) * 1) =
        if s.sound_timer > 0 then s.sound_timer - 1 else 0 := by
      unfold u8
      split <;> split <;> omega
    simp only [update_timers, if_neg hp, he, if_true, e1, e2]
  · intro h
    by_cases hp : prev_clock = 0
    · simp only [update_timers, if_pos hp]
    · have he : elapsed = false := by
        cases elapsed
        · rfl
        · exact absurd ⟨hp, rfl⟩ h
      simp [update_timers, hp, he]

theorem update_timers_decrement_witness :
    (update_timers { scenario_state with delay_timer := 7, sound_timer := 0 } 1000 true
        3000 3001).1 =
      { scenario_state with delay_timer := 6, sound_timer := 0 } :=
  (update_timers_decrement { scenario_state with delay_timer := 7, sound_timer := 0 } 1000 true
    3000 3001 (by decide) (by decide)).1 ⟨by decide, rfl⟩

/-! ## Call followed by return -/

theorem execute_return (s : State) :
    execute s 0x00EE =
      if u8 (s.stack_index + 255) < 16 then
        .ok { s with stack_index := u8 (s.stack_index + 255),
                     instruction_pointer := s.stack (u8 (s.stack_index + 255)) }
      else .error .out_of_bounds := by
  have hop : u8 (((0x00EE : Nat) &&& 0xF000) >>> 12) = 0 := by decide
  have ht : u16 (TRIBBLE 0x00EE 0) = 0x00EE := by decide
  by_cases h : u8 (s.stack_index + 255) < 16
  · simp [execute, hop, ht, return_from_routine, stack_pop, STACK_SIZE, h]
  · simp [execute, hop, ht, return_from_routine, stack_pop, STACK_SIZE, h]

theorem return_after_push (t : State) (d : Nat) (hw : t.waiting_for_key = false)
    (hf : fetch t = .ok 0x00EE) (hidx : t.stack_index = d + 1) (hd : d < 16) :
    cpu_step t = .ok { t with stack_index := d, instruction_pointer := t.stack d } := by
  have h1 : u8 (t.stack_index + 255) = d := by
    rw [hidx]; unfold u8; omega
  rw [cpu_step_eq_execute hw hf (by decide), execute_return, h1, if_pos hd]

/-- C19: in a state with program counter `p` and stack depth `d < 16` that is not waiting for a
key, a call `2nnn` followed, as the next executed instruction, by the return `00EE` ends with
program counter `p + 2` and stack depth `d`; the V registers, the address register, the memory,
the timers and the display are unchanged, and so are the stack entries below index `d`. -/
theorem call_then_return (s : State) (nnn : Nat) (hn : nnn < 0x1000)
    (hw : s.waiting_for_key = false) (hf : fetch s = .ok (0x2000 + nnn))
    (hd : s.stack_index < 16)
    (hf2 : fetch (result_or (cpu_step s) s) = .ok 0x00EE) :
    ∃ t u, cpu_step s = .ok t ∧ cpu_step t = .ok u ∧
      u.instruction_pointer = s.instruction_pointer + 2 ∧
      u.stack_index = s.stack_index ∧
      u.v_registers = s.v_registers ∧ u.address_register = s.address_register ∧
      u.memory = s.memory ∧ u.delay_timer = s.delay_timer ∧
      u.sound_timer = s.sound_timer ∧ u.vmemory = s.vmemory ∧
      ∀ i, i < s.stack_index → u.stack i = s.stack i := by
  have hs : cpu_step s = .ok { s with
      stack := set1 s.stack s.stack_index (u16 (s.instruction_pointer + 2)),
      stack_index := u8 (s.stack_index + 1),
      instruction_pointer := nnn } := by
    rw [cpu_step_eq_execute hw hf (by omega), execute_call s nnn hn, if_pos hd]
  rw [hs] at hf2
  have hu := return_after_push
    { s with stack := set1 s.stack s.stack_index (u16 (s.instruction_pointer + 2)),
             stack_index := u8 (s.stack_index + 1),
             instruction_pointer := nnn }
    s.stack_index hw hf2 (u8_of_lt (by omega)) hd
  refine ⟨_, _, hs, hu, ?_, rfl, rfl, rfl, rfl, rfl, rfl, rfl, ?_⟩
  · show set1 s.stack s.stack_index (u16 (s.instruction_pointer + 2)) s.stack_index = _
    simp only [set1, if_true]
    exact inc_of_fetch hf
  · intro i hi
    show set1 s.stack s.stack_index (u16 (s.instruction_pointer + 2)) i = _
    simp only [set1, if_neg (Nat.ne_of_lt hi)]

theorem call_then_return_witness :
    ∃ t u, cpu_step (initial_state [0x22, 0x04, 0x00, 0x00, 0x00, 0xEE] (fun _ => 0)) = .ok t ∧
      cpu_step t = .ok u ∧ t.instruction_pointer = 0x204 ∧ t.stack_index = 1 ∧
      u.instruction_pointer = 514 ∧ u.stack_index = 0 := by
  obtain ⟨t, u, h1, h2, h3, h4, _⟩ :=
    call_then_return (initial_state [0x22, 0x04, 0x00, 0x00, 0x00, 0xEE] (fun _ => 0)) 0x204
      (by decide) rfl rfl (by decide) rfl
  have e : cpu_step (initial_state [0x22, 0x04, 0x00, 0x00, 0x00, 0xEE] (fun _ => 0)) =
      .ok (result_or (cpu_step (initial_state [0x22, 0x04, 0x00, 0x00, 0x00, 0xEE] (fun _ => 0)))
        (initial_state [] (fun _ => 0))) := rfl
  have ht := Except.ok.inj (h1.symm.trans e)
  exact ⟨t, u, h1, h2, by rw [ht]; rfl, by rw [ht]; rfl, h3, h4⟩

/-! ## Add and subtract into the flag register -/

/-- C20: in a state that is not waiting for a key, for the instructions `8Fy4`, `8Fy5` and
`8Fy7` (destination `VF`), after the step `VF` holds the flag and not the 8-bit sum or
difference: `VF = 1` if the old `VF + Vy` exceeds 255 (for `8Fy4`), or if the old `VF` is below
the old `Vy` (for `8Fy5` and `8Fy7`), and `VF = 0` otherwise; so `VF` is 0 or 1. -/
theorem flag_destination_keeps_flag (s : State) (y n : Nat) (hy : y < 16)
    (hn : n = 4 ∨ n = 5 ∨ n = 7)
    (hw : s.waiting_for_key = false) (hf : fetch s = .ok (0x8F00 + 0x10 * y + n)) :
    ∃ t, cpu_step s = .ok t ∧
      t.v_registers 0xF =
        (if n = 4 then (if s.v_registers 0xF + s.v_registers y > 255 then 1 else 0)
         else (if s.v_registers 0xF < s.v_registers y then 1 else 0)) ∧
      (t.v_registers 0xF = 0 ∨ t.v_registers 0xF = 1) := by
  rw [cpu_step_eq_execute hw hf (by omega)]
  rcases hn with rfl | hn
  · have e : 0x8F00 + 0x10 * y + 4 = 0x8004 + 0x100 * 15 + 0x10 * y := by omega
    rw [e, execute_add s 15 y (by decide) hy]
    refine ⟨_, rfl, ?_, ?_⟩
    · simp [set1]
    · simp only [set1, if_true]
      split
      · exact Or.inr rfl
      · exact Or.inl rfl
  · have e : 0x8F00 + 0x10 * y + n = 0x8000 + 0x100 * 15 + 0x10 * y + n := by omega
    have hn4 : n ≠ 4 := by omega
    rw [e, execute_sub_gen s 15 y n (by decide) hy hn]
    refine ⟨_, rfl, ?_, ?_⟩
    · simp [set1, hn4]
    · simp only [set1, if_true]
      split
      · exact Or.inr rfl
      · exact Or.inl rfl

theorem flag_destination_keeps_flag_witness :
    ∃ t, cpu_step (sample_state [0x8F, 0x34] (fun k => if k = 15 then 200 else 100) 0) = .ok t ∧
      t.v_registers 0xF = 1 := by
  obtain ⟨t, h1, h2, _⟩ :=
    flag_destination_keeps_flag
      (sample_state [0x8F, 0x34] (fun k => if k = 15 then 200 else 100) 0) 3 4
      (by decide) (Or.inl rfl) rfl rfl
  exact ⟨t, h1, h2.trans rfl⟩

/-! ## Invalid instructions -/

theorem fetch_lt {s : State} {w : Nat} (hf : fetch s = .ok w) : w < 65536 := by
  unfold fetch at hf
  split at hf
  · cases hf
    exact Nat.mod_lt _ (by decide)
  · cases hf

theorem is_invalid_after_switch (r : Result) : is_invalid (after_switch r) = is_invalid r := by
  cases r <;> rfl

theorem is_invalid_crash (s : State) (w : Nat) :
    is_invalid (CRASH_INVALID_INSTRUCTION s w) = true := rfl

theorem after_switch_crash (s : State) (w : Nat) :
    after_switch (CRASH_INVALID_INSTRUCTION s w) = CRASH_INVALID_INSTRUCTION s w := rfl

theorem arithmetic_class (s : State) (w : Nat) :
    ((w % 0x10 ≤ 7 ∨ w % 0x10 = 0xE) → is_invalid (arithmetic s w) = false) ∧
      (¬ (w % 0x10 ≤ 7 ∨ w % 0x10 = 0xE) → arithmetic s w = CRASH_INVALID_INSTRUCTION s w) := by
  have hop : u8 (NIBBLE w 0) = w % 16 := by
    rw [NIBBLE_zero, u8_of_lt (by omega)]
  obtain ⟨op, hk⟩ : ∃ op, w % 16 = op := ⟨_, rfl⟩
  have hlt : op < 16 := by omega
  rw [hk] at hop
  simp only [hk]
  interval_cases op <;> simp [arithmetic, hop, is_invalid]

theorem key_pressed_class (s : State) (w : Nat) :
    ((w % 0x100 = 0x9E ∨ w % 0x100 = 0xA1) → is_invalid (key_pressed s w) = false) ∧
      (¬ (w % 0x100 = 0x9E ∨ w % 0x100 = 0xA1) →
        key_pressed s w = CRASH_INVALID_INSTRUCTION s w) := by
  have hop : u8 (BYTE w 0) = w % 256 := by
    rw [BYTE_zero, u8_of_lt (by omega)]
  constructor
  · rintro (h | h) <;> simp [key_pressed, hop, h] <;> split <;> rfl
  · intro h
    have h1 : w % 256 ≠ 0x9E := fun e => h (Or.inl e)
    have h2 : w % 256 ≠ 0xA1 := fun e => h (Or.inr e)
    simp [key_pressed, hop, h1, h2]

theorem misc_class (s : State) (w : Nat) :
    ((w % 0x100 = 0x07 ∨ w % 0x100 = 0x0A ∨ w % 0x100 = 0x15 ∨ w % 0x100 = 0x18 ∨
        w % 0x100 = 0x1E ∨ w % 0x100 = 0x29 ∨ w % 0x100 = 0x33 ∨ w % 0x100 = 0x55 ∨
        w % 0x100 = 0x65) → is_invalid (misc s w) = false) ∧
      ((w % 0x100 ≠ 0x07 ∧ w % 0x100 ≠ 0x0A ∧ w % 0x100 ≠ 0x15 ∧ w % 0x100 ≠ 0x18 ∧
        w % 0x100 ≠ 0x1E ∧ w % 0x100 ≠ 0x29 ∧ w % 0x100 ≠ 0x33 ∧ w % 0x100 ≠ 0x55 ∧
        w % 0x100 ≠ 0x65) → misc s w = CRASH_INVALID_INSTRUCTION s w) := by
  have hop : u8 (BYTE w 0) = w % 256 := by
    rw [BYTE_zero, u8_of_lt (by omega)]
  constructor
  · rintro (h | h | h | h | h | h | h | h | h) <;> simp [misc, hop, h] <;>
      first
        | rfl
        | (split <;> rfl)
  · rintro ⟨h1, h2, h3, h4, h5, h6, h7, h8, h9⟩
    simp [misc, hop, h1, h2, h3, h4, h5, h6, h7, h8, h9]

theorem is_invalid_ok (t : State) : is_invalid (.ok t) = false := rfl

theorem class_valid (r : Result) (N : Prop) (s : State) (w : Nat)
    (h1 : is_invalid r = false) (h2 : ¬ N) :
    (is_invalid r = true ↔ N) ∧ (N → r = CRASH_INVALID_INSTRUCTION s w) := by
  refine ⟨⟨fun h => ?_, fun h => absurd h h2⟩, fun h => absurd h h2⟩
  rw [h1] at h
  cases h

theorem class_invalid (r : Result) (N : Prop) (s : State) (w : Nat)
    (h1 : r = CRASH_INVALID_INSTRUCTION s w) (h2 : N) :
    (is_invalid r = true ↔ N) ∧ (N → r = CRASH_INVALID_INSTRUCTION s w) := by
  refine ⟨⟨fun _ => h2, fun _ => ?_⟩, fun _ => h1⟩
  rw [h1]
  rfl

theorem is_invalid_return (s : State) : is_invalid (return_from_routine s) = false := by
  unfold return_from_routine stack_pop
  by_cases h : u8 (s.stack_index + 255) < STACK_SIZE <;> simp [h, is_invalid]

theorem is_invalid_draw (s : State) (w : Nat) : is_invalid (draw s w) = false := by
  unfold draw
  by_cases h : s.address_register + u8 (NIBBLE w 0) ≤ MEMORY_SIZE <;> simp [h, is_invalid]

theorem execute_invalid_iff (s : State) (w : Nat) (hlt : w < 65536) :
    (is_invalid (execute s w) = true ↔ not_in_instruction_set w) ∧
      (not_in_instruction_set w → execute s w = CRASH_INVALID_INSTRUCTION s w) := by
  have hop : u8 ((w &&& 0xF000) >>> 12) = w / 4096 := by
    rw [opcode_eq]; omega
  obtain ⟨k, hk⟩ : ∃ k, w / 4096 = k := ⟨_, rfl⟩
  have hk16 : k < 16 := by omega
  rw [hk] at hop
  interval_cases k
  all_goals try (
    refine class_valid _ _ s w ?_ ?_
    · simp [execute, hop, is_invalid_after_switch, is_invalid_ok]
    · simp [not_in_instruction_set, hk])
  · have hi : u16 (TRIBBLE w 0) = w % 4096 := by
      rw [TRIBBLE_zero, u16_of_lt (by omega)]
    by_cases h1 : w % 4096 = 0xE0
    · refine class_valid _ _ s w ?_ ?_
      · simp [execute, hop, hi, h1, is_invalid_after_switch, is_invalid_ok]
      · simp [not_in_instruction_set, hk, h1]
    · by_cases h2 : w % 4096 = 0xEE
      · refine class_valid _ _ s w ?_ ?_
        · simp [execute, hop, hi, h2, is_invalid_return]
        · simp [not_in_instruction_set, hk, h2]
      · refine class_invalid _ _ s w ?_ ?_
        · simp [execute, hop, hi, h1, h2]
        · simp [not_in_instruction_set, hk, h1, h2]
  · refine class_valid _ _ s w ?_ ?_
    · by_cases h : s.stack_index < STACK_SIZE <;> simp [execute, hop, stack_push, h, is_invalid]
    · simp [not_in_instruction_set, hk]
  · obtain ⟨a1, a2⟩ := arithmetic_class s w
    by_cases h : w % 0x10 ≤ 7 ∨ w % 0x10 = 0xE
    · refine class_valid _ _ s w ?_ ?_
      · simp [execute, hop, is_invalid_after_switch, a1 h]
      · simp [not_in_instruction_set, hk, h]
    · refine class_invalid _ _ s w ?_ ?_
      · simp [execute, hop, a2 h, after_switch_crash]
      · simpa [not_in_instruction_set, hk] using h
  · refine class_valid _ _ s w ?_ ?_
    · simp [execute, hop, is_invalid_after_switch, is_invalid_draw]
    · simp [not_in_instruction_set, hk]
  · obtain ⟨a1, a2⟩ := key_pressed_class s w
    by_cases h : w % 0x100 = 0x9E ∨ w % 0x100 = 0xA1
    · refine class_valid _ _ s w ?_ ?_
      · simp [execute, hop, is_invalid_after_switch, a1 h]
      · simp only [not_in_instruction_set, hk]
        rcases h with h | h <;> simp [h]
    · refine class_invalid _ _ s w ?_ ?_
      · simp [execute, hop, a2 h, after_switch_crash]
      · simpa [not_in_instruction_set, hk, not_or] using h
  · obtain ⟨a1, a2⟩ := misc_class s w
    by_cases h : w % 0x100 = 0x07 ∨ w % 0x100 = 0x0A ∨ w % 0x100 = 0x15 ∨ w % 0x100 = 0x18 ∨
        w % 0x100 = 0x1E ∨ w % 0x100 = 0x29 ∨ w % 0x100 = 0x33 ∨ w % 0x100 = 0x55 ∨
        w % 0x100 = 0x65
    · refine class_valid _ _ s w ?_ ?_
      · simp [execute, hop, is_invalid_after_switch, a1 h]
      · simp only [not_in_instruction_set, hk]
        rcases h with h | h | h | h | h | h | h | h | h <;> simp [h]
    · have hc : w % 0x100 ≠ 0x07 ∧ w % 0x100 ≠ 0x0A ∧ w % 0x100 ≠ 0x15 ∧ w % 0x100 ≠ 0x18 ∧
          w % 0x100 ≠ 0x1E ∧ w % 0x100 ≠ 0x29 ∧ w % 0x100 ≠ 0x33 ∧ w % 0x100 ≠ 0x55 ∧
          w % 0x100 ≠ 0x65 := by
        refine ⟨fun e => h ?_, fun e => h ?_, fun e => h ?_, fun e => h ?_, fun e => h ?_,
          fun e => h ?_, fun e => h ?_, fun e => h ?_, fun e => h ?_⟩ <;> simp [e]
      refine class_invalid _ _ s w ?_ ?_
      · simp [execute, hop, a2 hc, after_switch_crash]
      · unfold not_in_instruction_set
        exact Or.inr (Or.inr (Or.inr ⟨hk, hc⟩))

/-- C12: in a state `s` that is not waiting for a key whose fetched word `w` is not zero, the
step ends in `CRASH_INVALID_INSTRUCTION` exactly when `w` is outside the instruction set as the
specification lists it; and whenever the step ends so, the exit reports the word `w` and the
offset of the program counter of `s`, and the globals at the exit are exactly those of `s`: no
register, memory byte, display pixel or program counter has been changed before the failure. -/
theorem invalid_instruction_iff (s : State) (w : Nat)
    (hw : s.waiting_for_key = false) (hf : fetch s = .ok w) (h0 : w ≠ 0) :
    (is_invalid (cpu_step s) = true ↔ not_in_instruction_set w) ∧
      (not_in_instruction_set w →
        cpu_step s = CRASH_INVALID_INSTRUCTION s w ∧
        cpu_step s =
          .error (.invalid_instruction w ((s.instruction_pointer : Int) - 512) s)) ∧
      (∀ i off g, cpu_step s = .error (.invalid_instruction i off g) →
        i = w ∧ off = (s.instruction_pointer : Int) - 512 ∧ g = s ∧
        g.v_registers = s.v_registers ∧ g.memory = s.memory ∧ g.vmemory = s.vmemory ∧
        g.instruction_pointer = s.instruction_pointer) := by
  rw [cpu_step_eq_execute hw hf h0]
  obtain ⟨h1, h2⟩ := execute_invalid_iff s w (fetch_lt hf)
  refine ⟨h1, fun h => ⟨h2 h, h2 h⟩, ?_⟩
  intro i off g hg
  have hinv : is_invalid (execute s w) = true := by
    rw [hg]
    rfl
  have hc := h2 (h1.1 hinv)
  rw [hc] at hg
  unfold CRASH_INVALID_INSTRUCTION at hg
  injection hg with hg
  injection hg with e1 e2 e3
  subst e1 e2 e3
  exact ⟨rfl, rfl, rfl, rfl, rfl, rfl, rfl⟩

theorem invalid_instruction_iff_witness :
    cpu_step (sample_state [0x8A, 0xB9] (fun _ => 3) 0) =
        .error (.invalid_instruction 0x8AB9 0 (sample_state [0x8A, 0xB9] (fun _ => 3) 0)) ∧
      is_invalid (cpu_step (sample_state [0x8A, 0xB4] (fun _ => 3) 0)) = false := by
  refine ⟨((invalid_instruction_iff (sample_state [0x8A, 0xB9] (fun _ => 3) 0) 0x8AB9
    rfl rfl (by decide)).2.1 (by decide)).2, ?_⟩
  have h := (invalid_instruction_iff (sample_state [0x8A, 0xB4] (fun _ => 3) 0) 0x8AB4
    rfl rfl (by decide)).1
  cases hc : is_invalid (cpu_step (sample_state [0x8A, 0xB4] (fun _ => 3) 0))
  · rfl
  · exact absurd (h.1 hc) (by decide)

/-! ## Alignment of the program counter -/

theorem u16_parity (n : Nat) : u16 n % 2 = n % 2 := by
  unfold u16; omega

theorem after_switch_ok {r : Result} {t : State} (h : after_switch r = .ok t) :
    ∃ t1, r = .ok t1 ∧ t = INC_INSTR_POINTER t1 := by
  cases r with
  | error e => cases h
  | ok t1 =>
    cases h
    exact ⟨t1, rfl, rfl⟩

theorem arithmetic_frame {s t : State} {w : Nat} (h : arithmetic s w = .ok t) :
    t.instruction_pointer = s.instruction_pointer ∧ t.stack = s.stack := by
  unfold arithmetic at h
  simp only [] at h
  split_ifs at h <;> first
    | (cases h; exact ⟨rfl, rfl⟩)
    | cases h

theorem misc_frame {s t : State} {w : Nat} (h : misc s w = .ok t) :
    t.instruction_pointer = s.instruction_pointer ∧ t.stack = s.stack := by
  unfold misc at h
  simp only [] at h
  by_cases h1 : u8 (BYTE w 0) = 0x0A
  · rw [if_pos h1] at h; cases h; exact ⟨rfl, rfl⟩
  rw [if_neg h1] at h
  by_cases h2 : u8 (BYTE w 0) = 0x07
  · rw [if_pos h2] at h; cases h; exact ⟨rfl, rfl⟩
  rw [if_neg h2] at h
  by_cases h3 : u8 (BYTE w 0) = 0x18
  · rw [if_pos h3] at h; cases h; exact ⟨rfl, rfl⟩
  rw [if_neg h3] at h
  by_cases h4 : u8 (BYTE w 0) = 0x15
  · rw [if_pos h4] at h; cases h; exact ⟨rfl, rfl⟩
  rw [if_neg h4] at h
  by_cases h5 : u8 (BYTE w 0) = 0x1E
  · rw [if_pos h5] at h; cases h; exact ⟨rfl, rfl⟩
  rw [if_neg h5] at h
  by_cases h6 : u8 (BYTE w 0) = 0x29
  · rw [if_pos h6] at h; cases h; exact ⟨rfl, rfl⟩
  rw [if_neg h6] at h
  by_cases h7 : u8 (BYTE w 0) = 0x55
  · rw [if_pos h7] at h
    by_cases hb : s.address_register + (u8 (NIBBLE w 2) + 1) ≤ MEMORY_SIZE
    · rw [if_pos hb] at h; cases h; exact ⟨rfl, rfl⟩
    · rw [if_neg hb] at h; cases h
  rw [if_neg h7] at h
  by_cases h8 : u8 (BYTE w 0) = 0x65
  · rw [if_pos h8] at h
    by_cases hb : s.address_register + (u8 (NIBBLE w 2) + 1) ≤ MEMORY_SIZE
    · rw [if_pos hb] at h; cases h; exact ⟨rfl, rfl⟩
    · rw [if_neg hb] at h; cases h
  rw [if_neg h8] at h
  by_cases h9 : u8 (BYTE w 0) = 0x33
  · rw [if_pos h9] at h
    by_cases hb : s.address_register + 2 < MEMORY_SIZE
    · rw [if_pos hb] at h; cases h; exact ⟨rfl, rfl⟩
    · rw [if_neg hb] at h; cases h
  rw [if_neg h9] at h
  cases h

theorem key_pressed_frame {s t : State} {w : Nat} (h : key_pressed s w = .ok t) :
    t.instruction_pointer % 2 = s.instruction_pointer % 2 ∧ t.stack = s.stack := by
  unfold key_pressed at h
  simp only [] at h
  split_ifs at h <;> first
    | (cases h; refine ⟨?_, rfl⟩; simp only [SKIP_INSTR_IF, u16_parity]; split <;> omega)
    | cases h

theorem foldl_paint_stack (cx cy : Nat) (mem : Nat → Nat) (sprite : Nat)
    (l : List (Nat × Nat)) (s : State) :
    (l.foldl (paint cx cy mem sprite) s).stack = s.stack := by
  induction l generalizing s with
  | nil => rfl
  | cons p l ih =>
    rw [List.foldl_cons, ih]
    rfl

theorem draw_frame {s t : State} {w : Nat} (h : draw s w = .ok t) :
    t.instruction_pointer = s.instruction_pointer ∧ t.stack = s.stack := by
  unfold draw at h
  simp only [] at h
  by_cases hI : s.address_register + u8 (NIBBLE w 0) ≤ MEMORY_SIZE
  · rw [if_pos hI] at h
    cases h
    rw [draw_rows_eq (s.v_registers (NIBBLE w 2)) (s.v_registers (NIBBLE w 1))
      s.address_register s.memory (List.range (u8 (NIBBLE w 0)))
      { s with v_registers := set1 s.v_registers 0xF 0 } rfl]
    exact ⟨(foldl_paint_frame _ _ _ _ _ _).2.2, foldl_paint_stack _ _ _ _ _ _⟩
  · rw [if_neg hI] at h
    cases h

theorem aligned_inc {s t : State} (ha : aligned s)
    (h : t.instruction_pointer % 2 = s.instruction_pointer % 2 ∧ t.stack = s.stack) :
    aligned (INC_INSTR_POINTER t) := by
  refine ⟨?_, fun i => ?_⟩
  · show u16 (t.instruction_pointer + 2) % 2 = 0
    have := ha.1
    rw [u16_parity]; omega
  · show t.stack i % 2 = 0
    rw [h.2]; exact ha.2 i

theorem skip_frame (s : State) (c : Bool) :
    (SKIP_INSTR_IF s c).instruction_pointer % 2 = s.instruction_pointer % 2 ∧
      (SKIP_INSTR_IF s c).stack = s.stack := by
  refine ⟨?_, rfl⟩
  show u16 (s.instruction_pointer + 2 * (if c = true then 1 else 0)) % 2 = _
  rw [u16_parity]
  split <;> omega

theorem aligned_step {s t : State} (ha : aligned s) (hj : even_jump_target s)
    (h : cpu_step s = .ok t) : aligned t := by
  cases hw : s.waiting_for_key with
  | true =>
    rw [cpu_step_waiting hw] at h
    cases h
    exact ha
  | false =>
    cases hf : fetch s with
    | error e => simp [cpu_step, hw, hf] at h
    | ok w =>
      by_cases h0 : w = 0
      · subst h0
        rw [cpu_step_zero hf] at h
        cases h
        exact ha
      · rw [cpu_step_eq_execute hw hf h0] at h
        unfold even_jump_target at hj
        rw [hf] at hj
        simp only [] at hj
        have hlt := fetch_lt hf
        have hop : u8 ((w &&& 0xF000) >>> 12) = w / 4096 := by
          rw [opcode_eq]; omega
        have ht : TRIBBLE w 0 = w % 4096 := TRIBBLE_zero w
        obtain ⟨k, hk⟩ : ∃ k, w / 4096 = k := ⟨_, rfl⟩
        have hk16 : k < 16 := by omega
        rw [hk] at hop hj
        interval_cases k
        · simp only [execute, hop] at h
          simp only [if_true] at h
          by_cases h1 : u16 (TRIBBLE w 0) = 0xE0
          · rw [if_pos h1] at h
            obtain ⟨t1, e1, e2⟩ := after_switch_ok h
            cases e1
            rw [e2]
            exact aligned_inc ha ⟨rfl, rfl⟩
          · rw [if_neg h1] at h
            by_cases h2 : u16 (TRIBBLE w 0) = 0xEE
            · rw [if_pos h2] at h
              unfold return_from_routine stack_pop at h
              simp only [] at h
              by_cases h3 : u8 (s.stack_index + 255) < STACK_SIZE
              · rw [if_pos h3] at h
                cases h
                exact ⟨ha.2 _, ha.2⟩
              · rw [if_neg h3] at h
                cases h
            · rw [if_neg h2] at h
              cases h
        · simp [execute, hop] at h
          rw [← h]
          exact ⟨by rw [ht]; exact hj.1 (Or.inl rfl), ha.2⟩
        · simp only [execute, hop] at h
          simp only [stack_push] at h
          by_cases h3 : s.stack_index < STACK_SIZE
          · simp [h3] at h
            rw [← h]
            refine ⟨by rw [ht]; exact hj.1 (Or.inr rfl), fun i => ?_⟩
            show set1 s.stack s.stack_index (u16 (NEXT_INSTR s)) i % 2 = 0
            unfold set1
            split
            · rw [u16_parity]
              have := ha.1
              unfold NEXT_INSTR
              omega
            · exact ha.2 i
          · simp [h3] at h
        · simp only [execute, hop, Nat.reduceEqDiff, if_true, if_false] at h
          obtain ⟨t1, e1, e2⟩ := after_switch_ok h
          cases e1
          rw [e2]
          exact aligned_inc ha (skip_frame s _)
        · simp only [execute, hop, Nat.reduceEqDiff, if_true, if_false] at h
          obtain ⟨t1, e1, e2⟩ := after_switch_ok h
          cases e1
          rw [e2]
          exact aligned_inc ha (skip_frame s _)
        · simp only [execute, hop, Nat.reduceEqDiff, if_true, if_false] at h
          obtain ⟨t1, e1, e2⟩ := after_switch_ok h
          cases e1
          rw [e2]
          exact aligned_inc ha (skip_frame s _)
        · simp only [execute, hop, Nat.reduceEqDiff, if_true, if_false] at h
          obtain ⟨t1, e1, e2⟩ := after_switch_ok h
          cases e1
          rw [e2]
          exact aligned_inc ha ⟨rfl, rfl⟩
        · simp only [execute, hop, Nat.reduceEqDiff, if_true, if_false] at h
          obtain ⟨t1, e1, e2⟩ := after_switch_ok h
          cases e1
          rw [e2]
          exact aligned_inc ha ⟨rfl, rfl⟩
        · simp only [execute, hop, Nat.reduceEqDiff, if_true, if_false] at h
          obtain ⟨t1, e1, e2⟩ := after_switch_ok h
          rw [e2]
          have hfr := arithmetic_frame e1
          exact aligned_inc ha ⟨by rw [hfr.1], hfr.2⟩
        · simp only [execute, hop, Nat.reduceEqDiff, if_true, if_false] at h
          obtain ⟨t1, e1, e2⟩ := after_switch_ok h
          cases e1
          rw [e2]
          exact aligned_inc ha (skip_frame s _)
        · simp only [execute, hop, Nat.reduceEqDiff, if_true, if_false] at h
          obtain ⟨t1, e1, e2⟩ := after_switch_ok h
          cases e1
          rw [e2]
          exact aligned_inc ha ⟨rfl, rfl⟩
        · simp only [execute, hop, Nat.reduceEqDiff, if_true, if_false] at h
          obtain ⟨t1, e1, e2⟩ := after_switch_ok h
          cases e1
          rw [e2]
          refine aligned_inc ha ⟨?_, rfl⟩
          show u16 (s.v_registers 0 + TRIBBLE w 0) % 2 = s.instruction_pointer % 2
          rw [u16_parity, ht, hj.2 rfl, ha.1]
        · simp only [execute, hop, Nat.reduceEqDiff, if_true, if_false] at h
          obtain ⟨t1, e1, e2⟩ := after_switch_ok h
          cases e1
          rw [e2]
          exact aligned_inc ha ⟨rfl, rfl⟩
        · simp only [execute, hop, Nat.reduceEqDiff, if_true, if_false] at h
          obtain ⟨t1, e1, e2⟩ := after_switch_ok h
          rw [e2]
          have hfr := draw_frame e1
          exact aligned_inc ha ⟨by rw [hfr.1], hfr.2⟩
        · simp only [execute, hop, Nat.reduceEqDiff, if_true, if_false] at h
          obtain ⟨t1, e1, e2⟩ := after_switch_ok h
          rw [e2]
          exact aligned_inc ha (key_pressed_frame e1)
        · simp only [execute, hop, Nat.reduceEqDiff, if_true, if_false] at h
          obtain ⟨t1, e1, e2⟩ := after_switch_ok h
          rw [e2]
          have hfr := misc_frame e1
          exact aligned_inc ha ⟨by rw [hfr.1], hfr.2⟩

theorem aligned_steps (s : State) (ha : aligned s) (n : Nat) (t : State)
    (hrun : cpu_steps n s = .ok t)
    (hj : ∀ k u, k < n → cpu_steps k s = .ok u → even_jump_target u) : aligned t := by
  induction n generalizing t with
  | zero =>
    cases hrun
    exact ha
  | succ n ih =>
    rw [cpu_steps_succ_last] at hrun
    cases hn : cpu_steps n s with
    | error e =>
      rw [hn] at hrun
      cases hrun
    | ok u =>
      rw [hn] at hrun
      have hu : aligned u :=
        ih u hn (fun k v hk hv => hj k v (Nat.lt_succ_of_lt hk) hv)
      exact aligned_step hu (hj n u (Nat.lt_succ_self n) hn) hrun

theorem aligned_initial (program : List Nat) (rand : Nat → Nat) :
    aligned (initial_state program rand) := by
  constructor
  · simp [initial_state, SIPEIT_PROGRAM_OFFSET]
  · intro i
    simp [initial_state]

/-- C18 as amended: in a state reached from the initial state by successful steps, the program
counter is even provided that, in every state of the run, an instruction `1nnn` or `2nnn` about
to execute has an even `nnn` and an instruction `Bnnn` about to execute has `V0 + nnn` even.
(Every other instruction adds 2 or 4 to the program counter, or restores a return address that
a call stored.) -/
theorem pc_even_of_even_jumps (program : List Nat) (rand : Nat → Nat) (n : Nat) (t : State)
    (hrun : cpu_steps n (initial_state program rand) = .ok t)
    (hj : ∀ k u, k < n → cpu_steps k (initial_state program rand) = .ok u →
      even_jump_target u) :
    t.instruction_pointer % 2 = 0 :=
  (aligned_steps _ (aligned_initial program rand) n t hrun hj).1

theorem pc_even_of_even_jumps_witness :
    (result_or (cpu_steps 2 even_jump_sample) even_jump_sample).instruction_pointer = 518 ∧
      (result_or (cpu_steps 2 even_jump_sample) even_jump_sample).instruction_pointer % 2 = 0 :=
  ⟨rfl, pc_even_of_even_jumps [0x12, 0x04, 0x00, 0x00, 0x60, 0x01] (fun _ => 0) 2
    (result_or (cpu_steps 2 even_jump_sample) even_jump_sample) rfl
    (by
      intro k u hk h
      interval_cases k
      · have e : even_jump_sample = u := Except.ok.inj h
        rw [← e]
        decide
      · have e1 : cpu_steps 1 even_jump_sample =
            .ok (result_or (cpu_steps 1 even_jump_sample) even_jump_sample) := rfl
        have e : result_or (cpu_steps 1 even_jump_sample) even_jump_sample = u :=
          Except.ok.inj (e1.symm.trans h)
        rw [← e]
        decide)⟩

/-- C18: the claim fails after one step.  From the initial state the program `1203` sets the
program counter to the odd address `0x203`. -/
theorem jump_to_odd_address :
    (cpu_step (initial_state [0x12, 0x03] (fun _ => 0))).toOption.map
      (fun t => (t.instruction_pointer, t.instruction_pointer % 2)) = some (0x203, 1) := by
  decide

/-! ## Memory accesses -/

/-- C17: the claim fails in a reachable state.  From the initial state, 19 successful steps of
`overrun_program` leave the address register at 8430, past the end of the 8192-byte array
`memory`; the next instruction, `F033` at address 550, writes `memory[8430 .. 8432]` with no
reduction and no bounds check, and the 20th step is that out-of-bounds store. -/
theorem bcd_outside_memory :
    overrun_program.length = 40 ∧
      (cpu_steps 19 (initial_state overrun_program (fun _ => 0))).toOption.map
        (fun t => (t.address_register, memory_accesses t)) =
        some (8430, [550, 551, 8430, 8431, 8432]) ∧
      fault_of (cpu_steps 20 (initial_state overrun_program (fun _ => 0))) =
        some Fault.out_of_bounds := by
  decide

/-- Under the two bounds, the indices listed by `memory_accesses` lie inside `memory`. -/
theorem memory_accesses_lt (s : State)
    (hpc : s.instruction_pointer + 1 < MEMORY_SIZE)
    (hI : s.address_register + 16 ≤ MEMORY_SIZE) :
    ∀ a ∈ memory_accesses s, a < MEMORY_SIZE := by
  intro a ha
  unfold memory_accesses at ha
  cases hw : s.waiting_for_key with
  | true => simp [hw] at ha
  | false =>
    simp only [hw, Bool.false_eq_true, if_false, List.mem_append, List.mem_cons,
      List.mem_singleton, List.not_mem_nil, or_false] at ha
    rcases ha with (rfl | rfl) | ha
    · omega
    · exact hpc
    · cases hf : fetch s with
      | error e => simp [hf] at ha
      | ok w =>
        have hn0 : u8 (NIBBLE w 0) < 16 := by
          rw [NIBBLE_zero, u8_of_lt (by omega)]; omega
        have hn2 : u8 (NIBBLE w 2) < 16 := by
          rw [NIBBLE_two, u8_of_lt (by omega)]; omega
        simp only [hf] at ha
        split_ifs at ha
        · simp at ha
        · simp only [List.mem_map, List.mem_range] at ha
          obtain ⟨y, hy, rfl⟩ := ha
          omega
        · simp only [List.mem_map, List.mem_range] at ha
          obtain ⟨y, hy, rfl⟩ := ha
          omega
        · simp only [List.mem_cons, List.mem_singleton, List.not_mem_nil, or_false] at ha
          rcases ha with rfl | rfl | rfl <;> omega
        · simp at ha

theorem after_switch_error {r : Result} {e : Fault} (h : after_switch r = .error e) :
    r = .error e := by
  cases r with
  | error e1 =>
    cases h
    rfl
  | ok t => cases h

theorem draw_in_bounds (s : State) (w : Nat)
    (hI : s.address_register + 16 ≤ MEMORY_SIZE) : ∃ t, draw s w = .ok t := by
  have hn0 : u8 (NIBBLE w 0) < 16 := by
    rw [NIBBLE_zero, u8_of_lt (by omega)]; omega
  unfold draw
  simp only []
  rw [if_pos (by omega)]
  exact ⟨_, rfl⟩

theorem misc_in_bounds (s : State) (w : Nat)
    (hI : s.address_register + 16 ≤ MEMORY_SIZE) : misc s w ≠ .error .out_of_bounds := by
  have hn2 : u8 (NIBBLE w 2) < 16 := by
    rw [NIBBLE_two, u8_of_lt (by omega)]; omega
  have hb1 : s.address_register + (u8 (NIBBLE w 2) + 1) ≤ MEMORY_SIZE := by omega
  have hb2 : s.address_register + 2 < MEMORY_SIZE := by omega
  intro h
  unfold misc at h
  simp only [] at h
  by_cases h1 : u8 (BYTE w 0) = 0x0A
  · rw [if_pos h1] at h; cases h
  rw [if_neg h1] at h
  by_cases h2 : u8 (BYTE w 0) = 0x07
  · rw [if_pos h2] at h; cases h
  rw [if_neg h2] at h
  by_cases h3 : u8 (BYTE w 0) = 0x18
  · rw [if_pos h3] at h; cases h
  rw [if_neg h3] at h
  by_cases h4 : u8 (BYTE w 0) = 0x15
  · rw [if_pos h4] at h; cases h
  rw [if_neg h4] at h
  by_cases h5 : u8 (BYTE w 0) = 0x1E
  · rw [if_pos h5] at h; cases h
  rw [if_neg h5] at h
  by_cases h6 : u8 (BYTE w 0) = 0x29
  · rw [if_pos h6] at h; cases h
  rw [if_neg h6] at h
  by_cases h7 : u8 (BYTE w 0) = 0x55
  · rw [if_pos h7, if_pos hb1] at h; cases h
  rw [if_neg h7] at h
  by_cases h8 : u8 (BYTE w 0) = 0x65
  · rw [if_pos h8, if_pos hb1] at h; cases h
  rw [if_neg h8] at h
  by_cases h9 : u8 (BYTE w 0) = 0x33
  · rw [if_pos h9, if_pos hb2] at h; cases h
  rw [if_neg h9] at h
  unfold CRASH_INVALID_INSTRUCTION at h
  cases h

theorem arithmetic_in_bounds (s : State) (w : Nat) :
    arithmetic s w ≠ .error .out_of_bounds := by
  have hop : u8 (NIBBLE w 0) = w % 16 := by
    rw [NIBBLE_zero, u8_of_lt (by omega)]
  obtain ⟨op, hk⟩ : ∃ op, w % 16 = op := ⟨_, rfl⟩
  have hlt : op < 16 := by omega
  rw [hk] at hop
  interval_cases op <;> simp [arithmetic, hop, CRASH_INVALID_INSTRUCTION]

theorem key_pressed_out_of_bounds {s : State} {w : Nat}
    (h : key_pressed s w = .error .out_of_bounds) :
    KEYS_SIZE ≤ s.v_registers (NIBBLE w 2) := by
  by_contra hk
  have hlt : s.v_registers (NIBBLE w 2) < KEYS_SIZE := by omega
  unfold key_pressed at h
  simp only [if_pos hlt] at h
  split_ifs at h
  all_goals cases h

/-- C17 as amended: the code neither reduces nor bounds-checks memory addresses, but in every
state with `instruction_pointer + 1` inside memory and at least 16 bytes of memory from the
address register on (as in the initial state), the next step accesses `memory` only inside the
array: the fetch succeeds, the draw block and the miscellaneous block never index `memory`
outside its bounds whatever the instruction word, an out-of-bounds fault of `cpu_step` can only
be an index into `stack` (call at capacity, return on an empty stack) or into `keys`, and every
index listed by `memory_accesses` is below the length of `memory`. -/
theorem memory_accesses_in_bounds (s : State)
    (hpc : s.instruction_pointer + 1 < MEMORY_SIZE)
    (hI : s.address_register + 16 ≤ MEMORY_SIZE) :
    (∃ w, fetch s = .ok w) ∧
      (∀ w, ∃ t, draw s w = .ok t) ∧
      (∀ w, misc s w ≠ .error .out_of_bounds) ∧
      (cpu_step s = .error .out_of_bounds →
        ∃ w, fetch s = .ok w ∧
          ((w / 0x1000 = 0x2 ∧ STACK_SIZE ≤ s.stack_index) ∨
           (w = 0x00EE ∧ STACK_SIZE ≤ u8 (s.stack_index + 255)) ∨
           (w / 0x1000 = 0xE ∧ KEYS_SIZE ≤ s.v_registers (NIBBLE w 2)))) ∧
      (∀ a ∈ memory_accesses s, a < MEMORY_SIZE) := by
  have hfe : ∃ w, fetch s = .ok w := by
    unfold fetch
    rw [if_pos hpc]
    exact ⟨_, rfl⟩
  refine ⟨hfe, fun w => draw_in_bounds s w hI, fun w => misc_in_bounds s w hI, ?_,
    memory_accesses_lt s hpc hI⟩
  intro h
  obtain ⟨w, hf⟩ := hfe
  refine ⟨w, hf, ?_⟩
  cases hw : s.waiting_for_key with
  | true =>
    rw [cpu_step_waiting hw] at h
    cases h
  | false =>
    by_cases h0 : w = 0
    · subst h0
      rw [cpu_step_zero hf] at h
      cases h
    · rw [cpu_step_eq_execute hw hf h0] at h
      have hlt := fetch_lt hf
      have hop : u8 ((w &&& 0xF000) >>> 12) = w / 4096 := by
        rw [opcode_eq]; omega
      obtain ⟨k, hk⟩ : ∃ k, w / 4096 = k := ⟨_, rfl⟩
      have hk16 : k < 16 := by omega
      rw [hk] at hop
      interval_cases k
      · simp only [execute, hop] at h
        simp only [if_true] at h
        have ht : u16 (TRIBBLE w 0) = w % 4096 := by
          rw [TRIBBLE_zero, u16_of_lt (by omega)]
        by_cases h1 : u16 (TRIBBLE w 0) = 0xE0
        · rw [if_pos h1] at h
          simp [after_switch] at h
        · rw [if_neg h1] at h
          by_cases h2 : u16 (TRIBBLE w 0) = 0xEE
          · rw [if_pos h2] at h
            unfold return_from_routine stack_pop at h
            simp only [] at h
            by_cases h3 : u8 (s.stack_index + 255) < STACK_SIZE
            · rw [if_pos h3] at h
              cases h
            · rw [ht] at h2
              exact Or.inr (Or.inl ⟨by omega, Nat.le_of_not_lt h3⟩)
          · rw [if_neg h2] at h
            unfold CRASH_INVALID_INSTRUCTION at h
            cases h
      · simp [execute, hop, after_switch] at h
      · by_cases h3 : s.stack_index < STACK_SIZE
        · simp [execute, hop, stack_push, h3] at h
        · exact Or.inl ⟨hk, Nat.le_of_not_lt h3⟩
      · simp [execute, hop, after_switch] at h
      · simp [execute, hop, after_switch] at h
      · simp [execute, hop, after_switch] at h
      · simp [execute, hop, after_switch] at h
      · simp [execute, hop, after_switch] at h
      · simp only [execute, hop, Nat.reduceEqDiff, if_true, if_false] at h
        exact absurd (after_switch_error h) (arithmetic_in_bounds s w)
      · simp [execute, hop, after_switch] at h
      · simp [execute, hop, after_switch] at h
      · simp [execute, hop, after_switch] at h
      · simp [execute, hop, after_switch] at h
      · simp only [execute, hop, Nat.reduceEqDiff, if_true, if_false] at h
        obtain ⟨t, ht⟩ := draw_in_bounds s w hI
        rw [ht] at h
        cases h
      · simp only [execute, hop, Nat.reduceEqDiff, if_true, if_false] at h
        exact Or.inr (Or.inr ⟨hk, key_pressed_out_of_bounds (after_switch_error h)⟩)
      · simp only [execute, hop, Nat.reduceEqDiff, if_true, if_false] at h
        exact absurd (after_switch_error h) (misc_in_bounds s w hI)

theorem memory_accesses_in_bounds_witness :
    8190 ∈ memory_accesses (sample_state [0xD1, 0x2F] (fun _ => 0) 0x1FF0) ∧
      8190 < MEMORY_SIZE ∧
      (∃ t, draw (sample_state [0xD1, 0x2F] (fun _ => 0) 0x1FF0) 0xD12F = .ok t) :=
  ⟨by decide,
    (memory_accesses_in_bounds (sample_state [0xD1, 0x2F] (fun _ => 0) 0x1FF0)
      (by decide) (by decide)).2.2.2.2 8190 (by decide),
    (memory_accesses_in_bounds (sample_state [0xD1, 0x2F] (fun _ => 0) 0x1FF0)
      (by decide) (by decide)).2.1 0xD12F⟩

/-- An access outside `memory` listed by `memory_accesses` is a fault of the step. -/
theorem memory_access_fault (s : State) (a : Nat) (ha : a ∈ memory_accesses s)
    (hout : MEMORY_SIZE ≤ a) : cpu_step s = .error .out_of_bounds := by
  unfold memory_accesses at ha
  cases hw : s.waiting_for_key with
  | true => simp [hw] at ha
  | false =>
    simp only [hw, Bool.false_eq_true, if_false, List.mem_append, List.mem_cons,
      List.mem_singleton, List.not_mem_nil, or_false] at ha
    cases hf : fetch s with
    | error e =>
      have he : e = .out_of_bounds := by
        unfold fetch at hf
        split at hf
        · cases hf
        · cases hf
          rfl
      simp [cpu_step, hw, hf, he]
    | ok w =>
      have hb := fetch_bound hf
      rcases ha with (rfl | rfl) | ha
      · omega
      · omega
      · simp only [hf] at ha
        by_cases h0 : w = 0
        · simp [h0] at ha
        · rw [cpu_step_eq_execute hw hf h0]
          rw [if_neg h0] at ha
          by_cases hD : u8 ((w &&& 0xF000) >>> 12) = 0xD
          · rw [if_pos hD] at ha
            simp only [List.mem_map, List.mem_range] at ha
            obtain ⟨y, hy, rfl⟩ := ha
            have hI : ¬ s.address_register + u8 (NIBBLE w 0) ≤ MEMORY_SIZE := by omega
            simp [execute, hD, draw, hI, after_switch]
          · rw [if_neg hD] at ha
            by_cases hF : u8 ((w &&& 0xF000) >>> 12) = 0xF ∧
                (u8 (BYTE w 0) = 0x55 ∨ u8 (BYTE w 0) = 0x65)
            · rw [if_pos hF] at ha
              simp only [List.mem_map, List.mem_range] at ha
              obtain ⟨y, hy, rfl⟩ := ha
              have hI : ¬ s.address_register + (u8 (NIBBLE w 2) + 1) ≤ MEMORY_SIZE := by omega
              rcases hF.2 with h5 | h5 <;>
                simp [execute, hF.1, misc, h5, hI, after_switch]
            · rw [if_neg hF] at ha
              by_cases hB : u8 ((w &&& 0xF000) >>> 12) = 0xF ∧ u8 (BYTE w 0) = 0x33
              · rw [if_pos hB] at ha
                simp only [List.mem_cons, List.mem_singleton, List.not_mem_nil,
                  or_false] at ha
                have hI : ¬ s.address_register + 2 < MEMORY_SIZE := by
                  rcases ha with rfl | rfl | rfl <;> omega
                simp [execute, hB.1, misc, hB.2, hI, after_switch]
              · rw [if_neg hB] at ha
                simp at ha

end Sipeit
